import Mathlib

/-
Verification development for the struct packing library (src/struct.c).

The C sources are shallowly embedded as executable Lean definitions:

* Byte buffers are `List Nat` whose elements are kept below 256 by
  construction (every store writes `… % 256` values, mirroring the C
  `uint8_t` stores).
* `size_t` is modelled as 64-bit: arithmetic that the C performs in
  `size_t` carries an explicit `% 2^64`, and the conversion of a `size_t`
  expression to the `ssize_t` return type of the calcsize handlers is
  `toSSizeT` (two's complement reinterpretation, as on every mainstream
  host).  `ssize_t`/`ptrdiff_t` quantities are `Int`.
* The variadic argument list of `struct_pack` is a `List Val`; each
  element carries the bit pattern of the corresponding C argument
  (`vint` for arguments fetched with `va_arg(vl, int)`, `vu32`/`vu64`
  for the 32/64-bit fetches, `vf32`/`vf64` for the bit patterns of the
  float/double carried by a `double` vararg, and `vstr` for the
  `const char *` source of an `s` field, `none` standing for NULL).
  For `struct_unpack` the variadic output pointers are a
  `List UnpackArg` (`scalar` for a pointer to one scalar slot,
  `sbuf dest` for the destination-buffer pointer of an `s` field whose
  `size_t` capacity argument is `dest.length`); the values the C code
  stores through those pointers are returned as a `List Val`.
* Host parameters that the C obtains from the compiler (`BYTE_ORDER`,
  `__alignof__`) are collected in a `Host` record and threaded through.
* Reads past the end of a caller-supplied C string (possible in
  `struct_pack_str` because the code walks beyond the terminator) are
  modelled as reading NUL bytes; fetching a vararg past the end of the
  supplied list (undefined behaviour in C) stops the primitive, which
  reports the bytes already written.  Writing `str[str_size - 1]` with
  `str_size == 0` in `struct_unpack_str` (undefined behaviour) is
  modelled as a no-op on the empty destination.
* Each public entry point returns its C return value (`Int`) together
  with the bytes it wrote (`struct_pack`) or the values it stored
  through the output pointers (`struct_unpack`).
* The loops of the three entry points iterate on the format string,
  which strictly shrinks at every successful `struct_parse_field`; the
  embedding makes this structural with a fuel argument that the entry
  points instantiate with the format length (always sufficient).
-/

/-- Byte order of the host or of a parsing context (`__BYTE_ORDER`,
`__LITTLE_ENDIAN`, `__BIG_ENDIAN`). -/
inductive ByteOrder
  | little
  | big
deriving DecidableEq

/-- Compile-time host parameters used by struct.c: the native byte order
and the `__alignof__` of the scalar types used by the codec handlers. -/
structure Host where
  order : ByteOrder
  alignShort : Nat
  alignInt : Nat
  alignQuad : Nat
  alignFloat : Nat
  alignDouble : Nat
deriving DecidableEq

/-- A typical little-endian LP64 host (x86-64 alignments). -/
def hostLE64 : Host := ⟨ByteOrder.little, 2, 4, 8, 4, 8⟩

/-- Mirror of `struct_context` (struct.c lines 49-56).  `repeat_count`
renders the C member `repeat` (a Lean keyword). -/
structure struct_context where
  byte_order : ByteOrder
  native_alignment : Bool
  native_size : Bool
  offset : Nat
  repeat_count : Nat
deriving DecidableEq

/-- The field kinds of the format table: `pad`=x, `byte`=c/b/B,
`bool`=?, `short`=h/H, `int`=i/I/l/L, `quad`=q/Q, `float`=f,
`double`=d, `str`=s. -/
inductive FieldKind
  | pad
  | byte
  | bool
  | short
  | int
  | quad
  | float
  | double
  | str
deriving DecidableEq

/-- One variadic argument of `struct_pack` (bit patterns, see header). -/
inductive Val
  | vint (v : Nat)
  | vu32 (v : Nat)
  | vu64 (v : Nat)
  | vf32 (bits : Nat)
  | vf64 (bits : Nat)
  | vstr (s : Option (List Nat))
deriving DecidableEq

/-- One variadic output argument of `struct_unpack`: a pointer to a
scalar slot, or the destination buffer (with its capacity argument
`dest.length`) of an `s` field. -/
inductive UnpackArg
  | scalar
  | sbuf (dest : List Nat)
deriving DecidableEq

/-- Reinterpret a `size_t` expression as the `ssize_t` it is returned
as (two's complement). -/
def toSSizeT (n : Nat) : Int :=
  if n % 2 ^ 64 < 2 ^ 63 then ((n % 2 ^ 64 : Nat) : Int)
  else ((n % 2 ^ 64 : Nat) : Int) - 2 ^ 64

/-- C `isspace` on the execution character set. -/
def isspace (c : Char) : Bool :=
  c = ' ' || c = '\t' || c = '\n' || c = '\x0b' || c = '\x0c' || c = '\r'

/-- C `isdigit`. -/
def isdigit (c : Char) : Bool :=
  '0' ≤ c && c ≤ '9'

/-- The `while (isspace(*c)) c++;` loop of `struct_parse_field`
(the end of the list stands for the NUL terminator, which is not a
space). -/
def skipSpaces : List Char → List Char
  | [] => []
  | c :: cs => if isspace c then skipSpaces cs else c :: cs

/-- The repeat-count accumulation loop of `struct_parse_field`:
`repeat = repeat * 10 + *c - '0'` in `size_t` arithmetic.  Returns the
accumulated count and the rest of the format. -/
def parseRepeat : List Char → Nat → Nat × List Char
  | [], acc => (acc, [])
  | c :: cs, acc =>
    if isdigit c then parseRepeat cs ((acc * 10 + (c.toNat - 48)) % 2 ^ 64)
    else (acc, c :: cs)

/-- The format table of struct.c (lines 141-160): format letter to
field kind.  The three handler columns of the C rows are recovered from
the kind by the dispatchers `kind_pack`, `kind_unpack`,
`kind_calcsize` below. -/
def struct_format_fields : List (Char × FieldKind) :=
  [('x', FieldKind.pad),
   ('c', FieldKind.byte),
   ('b', FieldKind.byte),
   ('B', FieldKind.byte),
   ('?', FieldKind.bool),
   ('h', FieldKind.short),
   ('H', FieldKind.short),
   ('i', FieldKind.int),
   ('I', FieldKind.int),
   ('l', FieldKind.int),
   ('L', FieldKind.int),
   ('q', FieldKind.quad),
   ('Q', FieldKind.quad),
   ('f', FieldKind.float),
   ('d', FieldKind.double),
   ('s', FieldKind.str)]

/-- The `while ((*field)->format != '\0' && (*field)->format != *c)`
lookup walk over the format table (the end of the list is the sentinel
row). -/
def findField : List (Char × FieldKind) → Char → Option FieldKind
  | [], _ => none
  | (f, k) :: t, c => if f = c then some k else findField t c

/-- Context-independent core of `struct_parse_field`: skip whitespace,
read an optional decimal repeat count (default 1), look the next letter
up in the format table.  Returns (rest of format, repeat count, kind or
`none` when the letter is missing or unknown). -/
def parseField0 (format : List Char) : List Char × Nat × Option FieldKind :=
  match skipSpaces format with
  | [] => ([], 1, none)
  | c :: cs =>
    if isdigit c then
      match parseRepeat (c :: cs) 0 with
      | (rep, []) => ([], rep, none)
      | (rep, d :: ds) =>
        match findField struct_format_fields d with
        | some k => (ds, rep, some k)
        | none => (d :: ds, rep, none)
    else
      match findField struct_format_fields c with
      | some k => (cs, 1, some k)
      | none => (c :: cs, 1, none)

/-- Mirror of `struct_parse_field` (struct.c lines 655-685): writes the
repeat count into the context and yields the located table row. -/
def struct_parse_field (format : List Char) (context : struct_context) :
    List Char × struct_context × Option FieldKind :=
  match parseField0 format with
  | (next, rep, k) => (next, { context with repeat_count := rep }, k)

/-- Mirror of ` struct_parse_prefix` (struct.c lines 687-726); the
context starts zeroed (`memset` in the entry points) and the prefix
fills the mode fields. -/
def struct_parse_prefix (host : Host) (format : List Char) :
    List Char × struct_context :=
  match format with
  | '=' :: c => (c, ⟨host.order, false, false, 0, 0⟩)
  | '<' :: c => (c, ⟨ByteOrder.little, false, false, 0, 0⟩)
  | '>' :: c => (c, ⟨ByteOrder.big, false, false, 0, 0⟩)
  | '!' :: c => (c, ⟨ByteOrder.big, false, false, 0, 0⟩)
  | '@' :: c => (c, ⟨host.order, true, true, 0, 0⟩)
  | c => (c, ⟨host.order, true, true, 0, 0⟩)

/-- Mirror of the `struct_field_padding` macro (struct.c lines 41-42):
`(align - offset % align) % align` in native-alignment mode, else 0. -/
def struct_field_padding (context : struct_context) (align : Nat) : Nat :=
  if context.native_alignment then
    (align - context.offset % align) % align
  else 0

/-- `load_16`: read a 16-bit value in host order from the first two
bytes (missing bytes, which never occur in reachable calls, read 0). -/
def load_16 (host : Host) (p : List Nat) : Nat :=
  if host.order = ByteOrder.little then
    p.getD 0 0 + p.getD 1 0 * 2 ^ 8
  else
    p.getD 1 0 + p.getD 0 0 * 2 ^ 8

/-- `stor_16`: write a 16-bit value (callers pass `v < 2^16`) in host
order. -/
def stor_16 (host : Host) (v : Nat) : List Nat :=
  if host.order = ByteOrder.little then
    [v % 2 ^ 8, v / 2 ^ 8]
  else
    [v / 2 ^ 8, v % 2 ^ 8]

/-- `swab_16`: `(v >> 8) | ((v & 0xff) << 8)` on `uint16_t`. -/
def swab_16 (v : Nat) : Nat :=
  v / 2 ^ 8 + (v % 2 ^ 8) * 2 ^ 8

/-- `load_32` in host order. -/
def load_32 (host : Host) (p : List Nat) : Nat :=
  if host.order = ByteOrder.little then
    p.getD 0 0 + p.getD 1 0 * 2 ^ 8 + p.getD 2 0 * 2 ^ 16 + p.getD 3 0 * 2 ^ 24
  else
    p.getD 3 0 + p.getD 2 0 * 2 ^ 8 + p.getD 1 0 * 2 ^ 16 + p.getD 0 0 * 2 ^ 24

/-- `stor_32` in host order (callers pass `v < 2^32`). -/
def stor_32 (host : Host) (v : Nat) : List Nat :=
  if host.order = ByteOrder.little then
    [v % 2 ^ 8, v / 2 ^ 8 % 2 ^ 8, v / 2 ^ 16 % 2 ^ 8, v / 2 ^ 24]
  else
    [v / 2 ^ 24, v / 2 ^ 16 % 2 ^ 8, v / 2 ^ 8 % 2 ^ 8, v % 2 ^ 8]

/-- `swab_32`:
`(v>>24) | ((v&0xff0000)>>8) | ((v&0xff00)<<8) | ((v&0xff)<<24)` on
`uint32_t`. -/
def swab_32 (v : Nat) : Nat :=
  v / 2 ^ 24 + v / 2 ^ 16 % 2 ^ 8 * 2 ^ 8 + v / 2 ^ 8 % 2 ^ 8 * 2 ^ 16 +
    v % 2 ^ 8 * 2 ^ 24

/-- The little-endian byte list `p8[i] = v & 0xff; v >>= 8` produced by
the `stor_64` loop. -/
def stor_64_go : Nat → Nat → List Nat
  | 0, _ => []
  | i + 1, v => v % 2 ^ 8 :: stor_64_go i (v / 2 ^ 8)

/-- `stor_64` (struct.c lines 280-294): the big-endian branch fills the
indices in reverse. -/
def stor_64 (host : Host) (v : Nat) : List Nat :=
  if host.order = ByteOrder.little then stor_64_go 8 v
  else (stor_64_go 8 v).reverse

/-- The `result <<= 8; result |= p8[...]` accumulation loop of
`load_64`; the first argument counts the remaining iterations. -/
def load_64_go (host : Host) (p : List Nat) : Nat → Nat → Nat
  | 0, result => result
  | i + 1, result =>
    load_64_go host p i
      (result * 2 ^ 8 +
        (if host.order = ByteOrder.little then p.getD i 0 else p.getD (7 - i) 0))

/-- `load_64` (struct.c lines 257-273). -/
def load_64 (host : Host) (p : List Nat) : Nat :=
  load_64_go host p 8 0

/-- The `result <<= 8; result |= v & 0xff; v >>= 8` loop of `swab_64`. -/
def swab_64_go : Nat → Nat → Nat → Nat
  | 0, result, _ => result
  | i + 1, result, v => swab_64_go i (result * 2 ^ 8 + v % 2 ^ 8) (v / 2 ^ 8)

/-- `swab_64` (struct.c lines 301-313). -/
def swab_64 (v : Nat) : Nat :=
  swab_64_go 8 0 v

/-- `struct_calcsize_pad`: `repeat * sizeof(uint8_t)` as `ssize_t`. -/
def struct_calcsize_pad (context : struct_context) : Int :=
  toSSizeT (context.repeat_count * 1)

/-- `struct_calcsize_byte`. -/
def struct_calcsize_byte (context : struct_context) : Int :=
  toSSizeT (context.repeat_count * 1)

/-- `struct_calcsize_bool`. -/
def struct_calcsize_bool (context : struct_context) : Int :=
  toSSizeT (context.repeat_count * 1)

/-- `struct_calcsize_short`: padding for `int16_t` plus
`repeat * sizeof(int16_t)`. -/
def struct_calcsize_short (host : Host) (context : struct_context) : Int :=
  toSSizeT (struct_field_padding context host.alignShort + context.repeat_count * 2)

/-- `struct_calcsize_int`: padding for `uint32_t` plus `repeat * 4`. -/
def struct_calcsize_int (host : Host) (context : struct_context) : Int :=
  toSSizeT (struct_field_padding context host.alignInt + context.repeat_count * 4)

/-- `struct_calcsize_quad`: padding for `uint64_t` plus `repeat * 8`. -/
def struct_calcsize_quad (host : Host) (context : struct_context) : Int :=
  toSSizeT (struct_field_padding context host.alignQuad + context.repeat_count * 8)

/-- `struct_calcsize_float`: padding for `float` plus `repeat * 4`. -/
def struct_calcsize_float (host : Host) (context : struct_context) : Int :=
  toSSizeT (struct_field_padding context host.alignFloat + context.repeat_count * 4)

/-- `struct_calcsize_double`: padding for `double` plus `repeat * 8`. -/
def struct_calcsize_double (host : Host) (context : struct_context) : Int :=
  toSSizeT (struct_field_padding context host.alignDouble + context.repeat_count * 8)

/-- `struct_calcsize_str`: `repeat * sizeof(char)`. -/
def struct_calcsize_str (context : struct_context) : Int :=
  toSSizeT (context.repeat_count * 1)

/-- The calcsize column of the format table row for a kind. -/
def kind_calcsize (host : Host) (k : FieldKind) (context : struct_context) : Int :=
  match k with
  | FieldKind.pad => struct_calcsize_pad context
  | FieldKind.byte => struct_calcsize_byte context
  | FieldKind.bool => struct_calcsize_bool context
  | FieldKind.short => struct_calcsize_short host context
  | FieldKind.int => struct_calcsize_int host context
  | FieldKind.quad => struct_calcsize_quad host context
  | FieldKind.float => struct_calcsize_float host context
  | FieldKind.double => struct_calcsize_double host context
  | FieldKind.str => struct_calcsize_str context

/-- The `for (i = 0; i < context->repeat; i++) *p++ = encode(va_arg …)`
loop shared by the scalar pack handlers.  `enc1` encodes one fetched
argument as its byte string, `none` meaning the vararg has the wrong
shape.  Returns the bytes written so far and the remaining arguments
(`none` when the loop fetched past the supplied arguments, i.e. hit
undefined behaviour). -/
def struct_pack_scalars (enc1 : Val → Option (List Nat)) :
    Nat → List Val → List Nat × Option (List Val)
  | 0, args => ([], some args)
  | _ + 1, [] => ([], none)
  | i + 1, a :: args =>
    match enc1 a with
    | some bs =>
      let r := struct_pack_scalars enc1 i args
      (bs ++ r.1, r.2)
    | none => ([], none)

/-- Encoder for one `c`/`b`/`B` argument: `*p++ = va_arg(vl, int)`
(conversion to `uint8_t`). -/
def enc_byte : Val → Option (List Nat)
  | Val.vint v => some [v % 2 ^ 8]
  | _ => none

/-- Encoder for one `?` argument: `*p++ = va_arg(vl, int) != 0`. -/
def enc_bool : Val → Option (List Nat)
  | Val.vint v => some [if v = 0 then 0 else 1]
  | _ => none

/-- Encoder for one `h`/`H` argument: truncate the `int` to `int16_t`,
swap when the context order differs from the host order, `stor_16`. -/
def enc_short (host : Host) (context : struct_context) : Val → Option (List Nat)
  | Val.vint v =>
    some ( stor_16 host
      (if context.byte_order ≠ host.order then swab_16 (v % 2 ^ 16) else v % 2 ^ 16))
  | _ => none

/-- Encoder for one `i`/`I`/`l`/`L` argument (`va_arg(vl, uint32_t)`). -/
def enc_int (host : Host) (context : struct_context) : Val → Option (List Nat)
  | Val.vu32 v =>
    some ( stor_32 host
      (if context.byte_order ≠ host.order then swab_32 (v % 2 ^ 32) else v % 2 ^ 32))
  | _ => none

/-- Encoder for one `q`/`Q` argument (`va_arg(vl, uint64_t)`). -/
def enc_quad (host : Host) (context : struct_context) : Val → Option (List Nat)
  | Val.vu64 v =>
    some ( stor_64 host
      (if context.byte_order ≠ host.order then swab_64 (v % 2 ^ 64) else v % 2 ^ 64))
  | _ => none

/-- Encoder for one `f` argument: the `float32` union stores the bit
pattern of the float the `double` vararg narrows to. -/
def enc_float (host : Host) (context : struct_context) : Val → Option (List Nat)
  | Val.vf32 bits =>
    some ( stor_32 host
      (if context.byte_order ≠ host.order then swab_32 (bits % 2 ^ 32) else bits % 2 ^ 32))
  | _ => none

/-- Encoder for one `d` argument: bit pattern of the `double`. -/
def enc_double (host : Host) (context : struct_context) : Val → Option (List Nat)
  | Val.vf64 bits =>
    some ( stor_64 host
      (if context.byte_order ≠ host.order then swab_64 (bits % 2 ^ 64) else bits % 2 ^ 64))
  | _ => none

/-- `struct_pack_pad` (struct.c lines 315-319): `memset(buffer, 0,
repeat)`, no argument consumed. -/
def struct_pack_pad (context : struct_context) (args : List Val) :
    List Nat × Option (List Val) :=
  (List.replicate context.repeat_count 0, some args)

/-- `struct_pack_byte` (struct.c lines 331-340). -/
def struct_pack_byte (context : struct_context) (args : List Val) :
    List Nat × Option (List Val) :=
  struct_pack_scalars enc_byte context.repeat_count args

/-- `struct_pack_bool` (struct.c lines 358-367). -/
def struct_pack_bool (context : struct_context) (args : List Val) :
    List Nat × Option (List Val) :=
  struct_pack_scalars enc_bool context.repeat_count args

/-- `struct_pack_short` (struct.c lines 385-404): zero the padding,
then store each value. -/
def struct_pack_short (host : Host) (context : struct_context) (args : List Val) :
    List Nat × Option (List Val) :=
  let padding := struct_field_padding context host.alignShort
  let r := struct_pack_scalars (enc_short host context) context.repeat_count args
  (List.replicate padding 0 ++ r.1, r.2)

/-- `struct_pack_int` (struct.c lines 430-449). -/
def struct_pack_int (host : Host) (context : struct_context) (args : List Val) :
    List Nat × Option (List Val) :=
  let padding := struct_field_padding context host.alignInt
  let r := struct_pack_scalars (enc_int host context) context.repeat_count args
  (List.replicate padding 0 ++ r.1, r.2)

/-- `struct_pack_quad` (struct.c lines 475-494). -/
def struct_pack_quad (host : Host) (context : struct_context) (args : List Val) :
    List Nat × Option (List Val) :=
  let padding := struct_field_padding context host.alignQuad
  let r := struct_pack_scalars (enc_quad host context) context.repeat_count args
  (List.replicate padding 0 ++ r.1, r.2)

/-- `struct_pack_float` (struct.c lines 520-540). -/
def struct_pack_float (host : Host) (context : struct_context) (args : List Val) :
    List Nat × Option (List Val) :=
  let padding := struct_field_padding context host.alignFloat
  let r := struct_pack_scalars (enc_float host context) context.repeat_count args
  (List.replicate padding 0 ++ r.1, r.2)

/-- `struct_pack_double` (struct.c lines 567-587). -/
def struct_pack_double (host : Host) (context : struct_context) (args : List Val) :
    List Nat × Option (List Val) :=
  let padding := struct_field_padding context host.alignDouble
  let r := struct_pack_scalars (enc_double host context) context.repeat_count args
  (List.replicate padding 0 ++ r.1, r.2)

/-- The copy loop of `struct_pack_str` (struct.c lines 615-630):
`if (str != NULL && *str != '0') *p++ = *str++; else *p++ = 0;`.
Note the C tests against the character `'0'` (0x30), not NUL; on `'0'`
the source pointer stops advancing.  Reading past the supplied bytes
(the C string terminator and beyond) is modelled as reading NUL. -/
def pack_str_bytes : Nat → Option (List Nat) → List Nat
  | 0, _ => []
  | i + 1, none => 0 :: pack_str_bytes i none
  | i + 1, some [] => 0 :: pack_str_bytes i (some [])
  | i + 1, some (b :: s) =>
    if b = 48 then 0 :: pack_str_bytes i (some (b :: s))
    else b :: pack_str_bytes i (some s)

/-- `struct_pack_str`: fetch the `const char *` argument and run the
copy loop for `repeat` bytes. -/
def struct_pack_str (context : struct_context) (args : List Val) :
    List Nat × Option (List Val) :=
  match args with
  | Val.vstr s :: rest => (pack_str_bytes context.repeat_count s, some rest)
  | _ => ([], none)

/-- The pack column of the format table row for a kind.  Returns the
bytes the handler wrote and the remaining arguments (`none` when a
vararg fetch was undefined). -/
def kind_pack (host : Host) (k : FieldKind) (context : struct_context)
    (args : List Val) : List Nat × Option (List Val) :=
  match k with
  | FieldKind.pad => struct_pack_pad context args
  | FieldKind.byte => struct_pack_byte context args
  | FieldKind.bool => struct_pack_bool context args
  | FieldKind.short => struct_pack_short host context args
  | FieldKind.int => struct_pack_int host context args
  | FieldKind.quad => struct_pack_quad host context args
  | FieldKind.float => struct_pack_float host context args
  | FieldKind.double => struct_pack_double host context args
  | FieldKind.str => struct_pack_str context args

/-- The `for (i …) *va_arg(vl, T*) = decode(p); p++;` loop shared by
the scalar unpack handlers.  `dec1` decodes the next `w`-byte slice
into the value stored through the output pointer.  `none` when a vararg
fetch was undefined (missing or non-scalar output argument). -/
def struct_unpack_scalars (dec1 : List Nat → Val) (w : Nat) :
    Nat → List Nat → List UnpackArg → Option (List Val × List UnpackArg)
  | 0, _, args => some ([], args)
  | i + 1, bs, UnpackArg.scalar :: args =>
    match struct_unpack_scalars dec1 w i (bs.drop w) args with
    | some (outs, rest) => some (dec1 (bs.take w) :: outs, rest)
    | none => none
  | _ + 1, _, _ => none

/-- Decoder for one `c`/`b`/`B` slot: the byte itself. -/
def dec_byte (bs : List Nat) : Val :=
  Val.vint (bs.getD 0 0)

/-- Decoder for one `?` slot: `(*p != 0)`. -/
def dec_bool (bs : List Nat) : Val :=
  Val.vint (if bs.getD 0 0 = 0 then 0 else 1)

/-- Decoder for one `h`/`H` slot: `load_16`, swap when the context
order differs from the host order. -/
def dec_short (host : Host) (context : struct_context) (bs : List Nat) : Val :=
  Val.vint
    (if context.byte_order ≠ host.order then swab_16 (load_16 host bs)
     else load_16 host bs)

/-- Decoder for one `i`/`I`/`l`/`L` slot. -/
def dec_int (host : Host) (context : struct_context) (bs : List Nat) : Val :=
  Val.vu32
    (if context.byte_order ≠ host.order then swab_32 (load_32 host bs)
     else load_32 host bs)

/-- Decoder for one `q`/`Q` slot. -/
def dec_quad (host : Host) (context : struct_context) (bs : List Nat) : Val :=
  Val.vu64
    (if context.byte_order ≠ host.order then swab_64 (load_64 host bs)
     else load_64 host bs)

/-- Decoder for one `f` slot (bit pattern written to the `float *`). -/
def dec_float (host : Host) (context : struct_context) (bs : List Nat) : Val :=
  Val.vf32
    (if context.byte_order ≠ host.order then swab_32 (load_32 host bs)
     else load_32 host bs)

/-- Decoder for one `d` slot (bit pattern written to the `double *`). -/
def dec_double (host : Host) (context : struct_context) (bs : List Nat) : Val :=
  Val.vf64
    (if context.byte_order ≠ host.order then swab_64 (load_64 host bs)
     else load_64 host bs)

/-- `struct_unpack_pad` (struct.c lines 321-324): skip `repeat` bytes,
no output. -/
def struct_unpack_pad (context : struct_context) (_buffer : List Nat)
    (args : List UnpackArg) : Option (Nat × List Val × List UnpackArg) :=
  some (context.repeat_count * 1, [], args)

/-- `struct_unpack_byte` (struct.c lines 342-351). -/
def struct_unpack_byte (context : struct_context) (buffer : List Nat)
    (args : List UnpackArg) : Option (Nat × List Val × List UnpackArg) :=
  (struct_unpack_scalars dec_byte 1 context.repeat_count buffer args).map
    (fun r => (context.repeat_count * 1, r.1, r.2))

/-- `struct_unpack_bool` (struct.c lines 369-378). -/
def struct_unpack_bool (context : struct_context) (buffer : List Nat)
    (args : List UnpackArg) : Option (Nat × List Val × List UnpackArg) :=
  (struct_unpack_scalars dec_bool 1 context.repeat_count buffer args).map
    (fun r => (context.repeat_count * 1, r.1, r.2))

/-- `struct_unpack_short` (struct.c lines 406-423): skip the padding,
then decode each value. -/
def struct_unpack_short (host : Host) (context : struct_context) (buffer : List Nat)
    (args : List UnpackArg) : Option (Nat × List Val × List UnpackArg) :=
  let padding := struct_field_padding context host.alignShort
  (struct_unpack_scalars (dec_short host context) 2 context.repeat_count
      (buffer.drop padding) args).map
    (fun r => (padding + context.repeat_count * 2, r.1, r.2))

/-- `struct_unpack_int` (struct.c lines 451-468). -/
def struct_unpack_int (host : Host) (context : struct_context) (buffer : List Nat)
    (args : List UnpackArg) : Option (Nat × List Val × List UnpackArg) :=
  let padding := struct_field_padding context host.alignInt
  (struct_unpack_scalars (dec_int host context) 4 context.repeat_count
      (buffer.drop padding) args).map
    (fun r => (padding + context.repeat_count * 4, r.1, r.2))

/-- `struct_unpack_quad` (struct.c lines 496-513). -/
def struct_unpack_quad (host : Host) (context : struct_context) (buffer : List Nat)
    (args : List UnpackArg) : Option (Nat × List Val × List UnpackArg) :=
  let padding := struct_field_padding context host.alignQuad
  (struct_unpack_scalars (dec_quad host context) 8 context.repeat_count
      (buffer.drop padding) args).map
    (fun r => (padding + context.repeat_count * 8, r.1, r.2))

/-- `struct_unpack_float` (struct.c lines 542-560). -/
def struct_unpack_float (host : Host) (context : struct_context) (buffer : List Nat)
    (args : List UnpackArg) : Option (Nat × List Val × List UnpackArg) :=
  let padding := struct_field_padding context host.alignFloat
  (struct_unpack_scalars (dec_float host context) 4 context.repeat_count
      (buffer.drop padding) args).map
    (fun r => (padding + context.repeat_count * 4, r.1, r.2))

/-- `struct_unpack_double` (struct.c lines 589-608). -/
def struct_unpack_double (host : Host) (context : struct_context) (buffer : List Nat)
    (args : List UnpackArg) : Option (Nat × List Val × List UnpackArg) :=
  let padding := struct_field_padding context host.alignDouble
  (struct_unpack_scalars (dec_double host context) 8 context.repeat_count
      (buffer.drop padding) args).map
    (fun r => (padding + context.repeat_count * 8, r.1, r.2))

/-- The exact bytes `strncpy(dst, src, n)` stores: the source up to its
first NUL, then NUL padding up to `n` bytes (running out of source is
the same as hitting its terminator). -/
def strncpy_bytes : Nat → List Nat → List Nat
  | 0, _ => []
  | n + 1, [] => 0 :: strncpy_bytes n []
  | n + 1, b :: s =>
    if b = 0 then 0 :: strncpy_bytes n []
    else b :: strncpy_bytes n s

/-- `struct_unpack_str` (struct.c lines 632-641): fetch the destination
pointer and its `size_t` capacity (`dest.length`), copy
`min(repeat, str_size)` bytes with `strncpy`, then store NUL at
`str_size - 1`.  (With `str_size == 0` the C write to `str[-1]` is
undefined behaviour; on the empty destination the model leaves it
empty.)  Returns `repeat` bytes consumed plus the new destination
contents. -/
def struct_unpack_str (context : struct_context) (buffer : List Nat)
    (args : List UnpackArg) : Option (Nat × List Val × List UnpackArg) :=
  match args with
  | UnpackArg.sbuf dest :: rest =>
    let str_size := dest.length
    let cnt := if context.repeat_count < str_size then context.repeat_count else str_size
    let d := strncpy_bytes cnt buffer ++ dest.drop cnt
    some (context.repeat_count * 1, [Val.vstr (some (d.set (str_size - 1) 0))], rest)
  | _ => none

/-- The unpack column of the format table row for a kind.  Returns the
handler's byte count, the values stored through the output pointers,
and the remaining output arguments. -/
def kind_unpack (host : Host) (k : FieldKind) (context : struct_context)
    (buffer : List Nat) (args : List UnpackArg) :
    Option (Nat × List Val × List UnpackArg) :=
  match k with
  | FieldKind.pad => struct_unpack_pad context buffer args
  | FieldKind.byte => struct_unpack_byte context buffer args
  | FieldKind.bool => struct_unpack_bool context buffer args
  | FieldKind.short => struct_unpack_short host context buffer args
  | FieldKind.int => struct_unpack_int host context buffer args
  | FieldKind.quad => struct_unpack_quad host context buffer args
  | FieldKind.float => struct_unpack_float host context buffer args
  | FieldKind.double => struct_unpack_double host context buffer args
  | FieldKind.str => struct_unpack_str context buffer args

/-- The `while (*c != '\0')` loop of `struct_pack` (struct.c lines
749-765) followed by the final cursor check.  `size` is the buffer
capacity, `pos` the bytes already written (`p - buffer`).  Returns the
C return value and the bytes written from `pos` on.  The fuel is
instantiated with the format length by `struct_pack` and always
suffices, since each successful parse consumes at least one
character. -/
def struct_pack_loop (host : Host) (size : Nat) :
    Nat → List Char → struct_context → Nat → List Val → Int × List Nat
  | _, [], _, pos, _ => ((pos : Int), [])
  | 0, _ :: _, _, _, _ => (-1, [])
  | fuel + 1, c :: cs, ctx, pos, args =>
    match struct_parse_field (c :: cs) ctx with
    | (next, ctx2, some k) =>
      let field_size := kind_calcsize host k ctx2
      if (size : Int) - (pos : Int) < field_size then (-1, [])
      else
        match kind_pack host k ctx2 args with
        | (chunk, some args2) =>
          if (chunk.length : Int) = field_size then
            let t := struct_pack_loop host size fuel next
              { ctx2 with offset := ctx2.offset + chunk.length }
              (pos + chunk.length) args2
            (t.1, chunk ++ t.2)
          else (-1, chunk)
        | (chunk, none) => (-1, chunk)
    | (_, _, none) => (-1, [])

/-- `struct_pack` (struct.c lines 732-774).  `buffer_null` models
`buffer == NULL`; the returned list is the byte string written into the
destination buffer (on error, the bytes written before the failure). -/
def struct_pack (host : Host) (buffer_null : Bool) (size : Nat)
    (format : Option (List Char)) (args : List Val) : Int × List Nat :=
  match format with
  | none => (-1, [])
  | some f =>
    if buffer_null then (-1, [])
    else
      match struct_parse_prefix host f with
      | (f2, ctx) => struct_pack_loop host size f2.length f2 ctx 0 args

/-- The `while (*c != '\0')` loop of `struct_unpack` (struct.c lines
793-809).  `buf` is the unread rest of the source buffer, `pos` the
bytes already consumed.  Returns the C return value and the values
stored through the output pointers. -/
def struct_unpack_loop (host : Host) (size : Nat) :
    Nat → List Char → struct_context → List Nat → Nat → List UnpackArg →
      Int × List Val
  | _, [], _, _, pos, _ => ((pos : Int), [])
  | 0, _ :: _, _, _, _, _ => (-1, [])
  | fuel + 1, c :: cs, ctx, buf, pos, args =>
    match struct_parse_field (c :: cs) ctx with
    | (next, ctx2, some k) =>
      let field_size := kind_calcsize host k ctx2
      if (size : Int) - (pos : Int) < field_size then (-1, [])
      else
        match kind_unpack host k ctx2 buf args with
        | some (r, outs, args2) =>
          if (r : Int) = field_size then
            let t := struct_unpack_loop host size fuel next
              { ctx2 with offset := ctx2.offset + r } (buf.drop r) (pos + r) args2
            (t.1, outs ++ t.2)
          else (-1, outs)
        | none => (-1, [])
    | (_, _, none) => (-1, [])

/-- `struct_unpack` (struct.c lines 776-818). -/
def struct_unpack (host : Host) (buffer_null : Bool) (size : Nat)
    (format : Option (List Char)) (buffer : List Nat) (args : List UnpackArg) :
    Int × List Val :=
  match format with
  | none => (-1, [])
  | some f =>
    if buffer_null then (-1, [])
    else
      match struct_parse_prefix host f with
      | (f2, ctx) => struct_unpack_loop host size f2.length f2 ctx buffer 0 args

/-- The `while (*c != '\0')` loop of `struct_calcsize` (struct.c lines
835-848): note the `if (field_size <= 0) break;` guard. -/
def struct_calcsize_loop (host : Host) :
    Nat → List Char → struct_context → Int → Int
  | _, [], _, result => result
  | 0, _ :: _, _, _ => -1
  | fuel + 1, c :: cs, ctx, result =>
    match struct_parse_field (c :: cs) ctx with
    | (next, ctx2, some k) =>
      let field_size := kind_calcsize host k ctx2
      if field_size ≤ 0 then -1
      else
        struct_calcsize_loop host fuel next
          { ctx2 with offset := ctx2.offset + field_size.toNat }
          (result + field_size)
    | (_, _, none) => -1

/-- `struct_calcsize` (struct.c lines 820-855). -/
def struct_calcsize (host : Host) (format : Option (List Char)) : Int :=
  match format with
  | none => -1
  | some f =>
    match struct_parse_prefix host f with
    | (f2, ctx) => struct_calcsize_loop host f2.length f2 ctx 0

/-- Ghost walker: the (kind, repeat) descriptor sequence of a format
body, or `none` when parsing fails before the end of the string. -/
def formatFields : Nat → List Char → Option (List (FieldKind × Nat))
  | _, [] => some []
  | 0, _ :: _ => none
  | fuel + 1, c :: cs =>
    match parseField0 (c :: cs) with
    | (next, rep, some k) =>
      match formatFields fuel next with
      | some fs => some ((k, rep) :: fs)
      | none => none
    | (_, _, none) => none

/-- Descriptor sequence of a full format string (prefix stripped). -/
def structFields (host : Host) (format : List Char) :
    Option (List (FieldKind × Nat)) :=
  match struct_parse_prefix host format with
  | (f2, _) => formatFields f2.length f2

/-- True on the kinds that take scalar value slots (everything except
pad and str). -/
def scalarKind : FieldKind → Bool
  | FieldKind.pad => false
  | FieldKind.str => false
  | _ => true

/-- True on the kinds whose codec computes alignment padding. -/
def scalarWide : FieldKind → Bool
  | FieldKind.short => true
  | FieldKind.int => true
  | FieldKind.quad => true
  | FieldKind.float => true
  | FieldKind.double => true
  | _ => false

/-- Host alignment of the scalar type behind a kind (1 for the
single-byte and str kinds, whose handlers compute no padding). -/
def fieldAlign (host : Host) : FieldKind → Nat
  | FieldKind.short => host.alignShort
  | FieldKind.int => host.alignInt
  | FieldKind.quad => host.alignQuad
  | FieldKind.float => host.alignFloat
  | FieldKind.double => host.alignDouble
  | _ => 1

/-- The padding the handlers of a kind insert in the given context. -/
def kind_padding (host : Host) (k : FieldKind) (context : struct_context) : Nat :=
  match k with
  | FieldKind.short => struct_field_padding context host.alignShort
  | FieldKind.int => struct_field_padding context host.alignInt
  | FieldKind.quad => struct_field_padding context host.alignQuad
  | FieldKind.float => struct_field_padding context host.alignFloat
  | FieldKind.double => struct_field_padding context host.alignDouble
  | _ => 0

/-- Element width in bytes of a scalar kind. -/
def kindWidth : FieldKind → Nat
  | FieldKind.short => 2
  | FieldKind.int => 4
  | FieldKind.quad => 8
  | FieldKind.float => 4
  | FieldKind.double => 8
  | _ => 1

/-- The value slots a descriptor sequence consumes: none for pad, one
per repetition for scalar kinds, one for str. -/
def slotKinds : List (FieldKind × Nat) → List FieldKind
  | [] => []
  | (k, rep) :: t =>
    (match k with
     | FieldKind.pad => []
     | FieldKind.str => [FieldKind.str]
     | _ => List.replicate rep k) ++ slotKinds t

/-- Does a packed argument fit the slot of a kind (right vararg shape,
value within the width the codec round-trips)? -/
def valOK : FieldKind → Val → Bool
  | FieldKind.byte, Val.vint v => v < 2 ^ 8
  | FieldKind.bool, Val.vint _ => true
  | FieldKind.short, Val.vint v => v < 2 ^ 16
  | FieldKind.int, Val.vu32 v => v < 2 ^ 32
  | FieldKind.quad, Val.vu64 v => v < 2 ^ 64
  | FieldKind.float, Val.vf32 v => v < 2 ^ 32
  | FieldKind.double, Val.vf64 v => v < 2 ^ 64
  | FieldKind.str, Val.vstr _ => true
  | _, _ => false

/-- Pointwise `valOK` of a value list against its slot kinds. -/
def valsMatch : List FieldKind → List Val → Bool
  | [], [] => true
  | k :: ks, a :: as2 => valOK k a && valsMatch ks as2
  | _, _ => false

/-- Value a slot reads back after a round trip: the identity, except
that bool slots come back normalised to 0/1. -/
def normVal : FieldKind → Val → Val
  | FieldKind.bool, Val.vint v => Val.vint (if v = 0 then 0 else 1)
  | _, a => a

/-- Round-trip image of a packed value list. -/
def normVals (fields : List (FieldKind × Nat)) (vals : List Val) : List Val :=
  List.zipWith normVal (slotKinds fields) vals

/-- Ghost instrumentation of the `struct_calcsize` walk: for every
field it records (kind, offset before the field, padding the field's
handlers insert there).  Defined exactly on the formats
`struct_calcsize` accepts. -/
def struct_calcsize_trace (host : Host) :
    Nat → List Char → struct_context → Option (List (FieldKind × Nat × Nat))
  | _, [], _ => some []
  | 0, _ :: _, _ => none
  | fuel + 1, c :: cs, ctx =>
    match struct_parse_field (c :: cs) ctx with
    | (next, ctx2, some k) =>
      let field_size := kind_calcsize host k ctx2
      if field_size ≤ 0 then none
      else
        match struct_calcsize_trace host fuel next
            { ctx2 with offset := ctx2.offset + field_size.toNat } with
        | some es => some ((k, ctx2.offset, kind_padding host k ctx2) :: es)
        | none => none
    | (_, _, none) => none

/-- Field trace of a full format string. -/
def structTrace (host : Host) (format : List Char) :
    Option (List (FieldKind × Nat × Nat)) :=
  match struct_parse_prefix host format with
  | (f2, ctx) => struct_calcsize_trace host f2.length f2 ctx

/-- Accumulator form of `digitsVal` (exact, no wrap). -/
def digitsValGo : List Char → Nat → Nat
  | [], acc => acc
  | c :: cs, acc => digitsValGo cs (acc * 10 + (c.toNat - 48))

/-- Decimal value of a digit string (for stating what the repeat-count
parser computes). -/
def digitsVal (ds : List Char) : Nat :=
  digitsValGo ds 0

/-! ### Parsing lemmas -/

theorem skipSpaces_length (l : List Char) : (skipSpaces l).length ≤ l.length := by
  induction l with
  | nil => simp [skipSpaces]
  | cons c cs ih =>
    simp only [skipSpaces]
    split
    · exact Nat.le_succ_of_le ih
    · simp

theorem parseRepeat_length (l : List Char) : ∀ acc, (parseRepeat l acc).2.length ≤ l.length := by
  induction l with
  | nil => intro acc; simp [parseRepeat]
  | cons c cs ih =>
    intro acc
    simp only [parseRepeat]
    split
    · exact Nat.le_succ_of_le (ih _)
    · simp

theorem parseField0_length {l next : List Char} {rep : Nat} {k : FieldKind}
    (h : parseField0 l = (next, rep, some k)) : next.length < l.length := by
  have hs := skipSpaces_length l
  unfold parseField0 at h
  rcases hss : skipSpaces l with _ | ⟨c, cs⟩ <;> rw [hss] at h hs
  · simp at h
  · by_cases hd : isdigit c = true
    · simp only [hd, if_true] at h
      have hp := parseRepeat_length (c :: cs) 0
      rcases hpr : parseRepeat (c :: cs) 0 with ⟨r2, rest2⟩
      rw [hpr] at h hp
      rcases rest2 with _ | ⟨d, ds⟩
      · simp at h
      · rcases hff : findField struct_format_fields d with _ | k2 <;> simp [hff] at h
        rcases h with ⟨h1, _, _⟩
        subst h1
        simp at hp hs
        omega
    · simp only [hd] at h
      simp only [if_false, Bool.false_eq_true] at h
      rcases hff : findField struct_format_fields c with _ | k2 <;> simp [hff] at h
      rcases h with ⟨h1, _, _⟩
      subst h1
      simp at hs
      omega

theorem struct_parse_field_eq (format : List Char) (ctx : struct_context) :
    struct_parse_field format ctx =
      ((parseField0 format).1,
        { ctx with repeat_count := (parseField0 format).2.1 },
        (parseField0 format).2.2) := by
  unfold struct_parse_field
  rcases parseField0 format with ⟨a, b, c⟩
  rfl

/-! ### Result-range and format-consumption lemmas for the three loops -/

theorem struct_pack_loop_ge (host : Host) (size : Nat) :
    ∀ fuel fmt ctx pos args, -1 ≤ (struct_pack_loop host size fuel fmt ctx pos args).1 := by
  intro fuel
  induction fuel with
  | zero =>
    intro fmt ctx pos args
    cases fmt <;> simp [struct_pack_loop] <;> omega
  | succ f ih =>
    intro fmt ctx pos args
    cases fmt with
    | nil => simp only [struct_pack_loop]; omega
    | cons c cs =>
      simp only [struct_pack_loop, struct_parse_field_eq]
      rcases parseField0 (c :: cs) with ⟨next, rep, _ | k⟩
      · simp
      · simp only
        split
        · simp
        · rcases hkp : kind_pack host k _ args with ⟨chunk, _ | args2⟩
          · simp
          · simp only
            split
            · exact ih _ _ _ _
            · simp

theorem struct_unpack_loop_ge (host : Host) (size : Nat) :
    ∀ fuel fmt ctx buf pos args,
      -1 ≤ (struct_unpack_loop host size fuel fmt ctx buf pos args).1 := by
  intro fuel
  induction fuel with
  | zero =>
    intro fmt ctx buf pos args
    cases fmt <;> simp [struct_unpack_loop] <;> omega
  | succ f ih =>
    intro fmt ctx buf pos args
    cases fmt with
    | nil => simp only [struct_unpack_loop]; omega
    | cons c cs =>
      simp only [struct_unpack_loop, struct_parse_field_eq]
      rcases parseField0 (c :: cs) with ⟨next, rep, _ | k⟩
      · simp
      · simp only
        split
        · simp
        · rcases hku : kind_unpack host k _ buf args with _ | ⟨r, outs, args2⟩
          · simp
          · simp only
            split
            · exact ih _ _ _ _ _
            · simp

theorem struct_calcsize_loop_ge (host : Host) :
    ∀ fuel fmt ctx result, 0 ≤ result →
      -1 ≤ struct_calcsize_loop host fuel fmt ctx result := by
  intro fuel
  induction fuel with
  | zero =>
    intro fmt ctx result hr
    cases fmt <;> simp [struct_calcsize_loop] <;> omega
  | succ f ih =>
    intro fmt ctx result hr
    cases fmt with
    | nil => simp [struct_calcsize_loop]; omega
    | cons c cs =>
      simp only [struct_calcsize_loop, struct_parse_field_eq]
      rcases parseField0 (c :: cs) with ⟨next, rep, _ | k⟩
      · simp
      · simp only
        split
        · simp
        · rename_i hfs
          exact ih _ _ _ (by omega)

theorem struct_pack_loop_nonneg_fields (host : Host) (size : Nat) :
    ∀ fuel fmt ctx pos args, 0 ≤ (struct_pack_loop host size fuel fmt ctx pos args).1 →
      ∃ fs, formatFields fuel fmt = some fs := by
  intro fuel
  induction fuel with
  | zero =>
    intro fmt ctx pos args h
    cases fmt with
    | nil => exact ⟨[], rfl⟩
    | cons c cs => simp [struct_pack_loop] at h
  | succ f ih =>
    intro fmt ctx pos args h
    cases fmt with
    | nil => exact ⟨[], rfl⟩
    | cons c cs =>
      simp only [struct_pack_loop, struct_parse_field_eq] at h
      simp only [formatFields]
      rcases hp : parseField0 (c :: cs) with ⟨next, rep, kk⟩
      rw [hp] at h
      rcases kk with _ | k
      · simp at h
      · simp only at h ⊢
        split at h
        · simp at h
        · rcases hkp : kind_pack host k _ args with ⟨chunk, oargs⟩
          rw [hkp] at h
          rcases oargs with _ | args2
          · simp at h
          · simp only at h
            split at h
            · rcases ih _ _ _ _ h with ⟨fs, hfs⟩
              exact ⟨(k, rep) :: fs, by rw [hfs]⟩
            · simp at h

theorem struct_unpack_loop_nonneg_fields (host : Host) (size : Nat) :
    ∀ fuel fmt ctx buf pos args,
      0 ≤ (struct_unpack_loop host size fuel fmt ctx buf pos args).1 →
      ∃ fs, formatFields fuel fmt = some fs := by
  intro fuel
  induction fuel with
  | zero =>
    intro fmt ctx buf pos args h
    cases fmt with
    | nil => exact ⟨[], rfl⟩
    | cons c cs => simp [struct_unpack_loop] at h
  | succ f ih =>
    intro fmt ctx buf pos args h
    cases fmt with
    | nil => exact ⟨[], rfl⟩
    | cons c cs =>
      simp only [struct_unpack_loop, struct_parse_field_eq] at h
      simp only [formatFields]
      rcases hp : parseField0 (c :: cs) with ⟨next, rep, kk⟩
      rw [hp] at h
      rcases kk with _ | k
      · simp at h
      · simp only at h ⊢
        split at h
        · simp at h
        · rcases hku : kind_unpack host k _ buf args with _ | ⟨r, outs, args2⟩
          · rw [hku] at h; simp at h
          · rw [hku] at h
            simp only at h
            split at h
            · rcases ih _ _ _ _ _ h with ⟨fs, hfs⟩
              exact ⟨(k, rep) :: fs, by rw [hfs]⟩
            · simp at h

theorem struct_calcsize_loop_nonneg_fields (host : Host) :
    ∀ fuel fmt ctx result, 0 ≤ struct_calcsize_loop host fuel fmt ctx result →
      ∃ fs, formatFields fuel fmt = some fs := by
  intro fuel
  induction fuel with
  | zero =>
    intro fmt ctx result h
    cases fmt with
    | nil => exact ⟨[], rfl⟩
    | cons c cs => simp [struct_calcsize_loop] at h
  | succ f ih =>
    intro fmt ctx result h
    cases fmt with
    | nil => exact ⟨[], rfl⟩
    | cons c cs =>
      simp only [struct_calcsize_loop, struct_parse_field_eq] at h
      simp only [formatFields]
      rcases hp : parseField0 (c :: cs) with ⟨next, rep, kk⟩
      rw [hp] at h
      rcases kk with _ | k
      · simp at h
      · simp only at h ⊢
        split at h
        · simp at h
        · rcases ih _ _ _ h with ⟨fs, hfs⟩
          exact ⟨(k, rep) :: fs, by rw [hfs]⟩

/-! ### Whitespace lemmas (trailing whitespace, C9) -/

theorem skipSpaces_append_ws (ws rest : List Char) (h : ∀ c ∈ ws, isspace c = true) :
    skipSpaces (ws ++ rest) = skipSpaces rest := by
  induction ws with
  | nil => rfl
  | cons c cs ih =>
    simp only [List.cons_append, skipSpaces, h c (by simp), if_true]
    exact ih (fun d hd => h d (by simp [hd]))

theorem parseField0_ws (ws rest : List Char) (h : ∀ c ∈ ws, isspace c = true) :
    parseField0 (ws ++ rest) = parseField0 rest := by
  unfold parseField0
  rw [skipSpaces_append_ws ws rest h]

theorem findField_space (c : Char) (h : isspace c = true) :
    findField struct_format_fields c = none := by
  simp only [isspace, Bool.or_eq_true, decide_eq_true_eq] at h
  rcases h with ((((h | h) | h) | h) | h) | h <;> subst h <;> decide

theorem isdigit_not_space (c : Char) (h : isspace c = true) : isdigit c = false := by
  simp only [isspace, Bool.or_eq_true, decide_eq_true_eq] at h
  rcases h with ((((h | h) | h) | h) | h) | h <;> subst h <;> decide

theorem skipSpaces_append (a b : List Char) :
    skipSpaces (a ++ b) =
      if skipSpaces a = [] then skipSpaces b else skipSpaces a ++ b := by
  induction a with
  | nil => simp [skipSpaces]
  | cons c cs ih =>
    simp only [List.cons_append, skipSpaces]
    split
    · exact ih
    · simp

theorem parseRepeat_suffix (b : List Char) (hb : ∀ c ∈ b, isdigit c = false) :
    ∀ a acc, ∃ a2, (parseRepeat (a ++ b) acc).2 = a2 ++ b := by
  intro a
  induction a with
  | nil =>
    intro acc
    cases b with
    | nil => exact ⟨[], rfl⟩
    | cons d ds =>
      refine ⟨[], ?_⟩
      simp only [List.nil_append, parseRepeat, hb d (by simp)]
      simp
  | cons c cs ih =>
    intro acc
    simp only [List.cons_append, parseRepeat]
    split
    · exact ih _
    · exact ⟨c :: cs, rfl⟩

theorem parseField0_ws_suffix (ws : List Char) (hw : ∀ c ∈ ws, isspace c = true)
    (r next : List Char) (rep : Nat) (k : FieldKind)
    (h : parseField0 (r ++ ws) = (next, rep, some k)) :
    ∃ r2, next = r2 ++ ws := by
  have hnd : ∀ c ∈ ws, isdigit c = false := fun c hc => isdigit_not_space c (hw c hc)
  have hwsnil : skipSpaces ws = [] := by
    have := skipSpaces_append_ws ws [] hw
    simpa using this
  unfold parseField0 at h
  rw [skipSpaces_append r ws] at h
  by_cases hre : skipSpaces r = []
  · rw [if_pos hre, hwsnil] at h
    simp at h
  · rw [if_neg hre] at h
    rcases hsr : skipSpaces r with _ | ⟨c, cs⟩
    · exact absurd hsr hre
    · rw [hsr] at h
      simp only [List.cons_append] at h
      by_cases hd : isdigit c = true
      · rw [if_pos hd] at h
        rcases parseRepeat_suffix ws hnd (c :: cs) 0 with ⟨a2, ha2⟩
        rcases hpr : parseRepeat ((c :: cs) ++ ws) 0 with ⟨rp, rem⟩
        rw [hpr] at ha2
        simp only at ha2
        simp only [List.cons_append] at hpr
        rw [hpr] at h
        subst ha2
        rcases a2 with _ | ⟨d, ds⟩
        · rcases ws with _ | ⟨w, wt⟩
          · simp at h
          · simp only [List.nil_append] at h
            rw [findField_space w (hw w (by simp))] at h
            simp at h
        · simp only [List.cons_append] at h
          rcases hff : findField struct_format_fields d with _ | k2 <;> rw [hff] at h
          · simp at h
          · simp only [Prod.mk.injEq] at h
            exact ⟨ds, h.1.symm⟩
      · rw [if_neg hd] at h
        rcases hff : findField struct_format_fields c with _ | k2 <;> rw [hff] at h
        · simp at h
        · simp only [Prod.mk.injEq] at h
          exact ⟨cs, h.1.symm⟩

theorem formatFields_append_ws (ws : List Char) (hne : ws ≠ [])
    (hw : ∀ c ∈ ws, isspace c = true) :
    ∀ fuel r, formatFields fuel (r ++ ws) = none := by
  intro fuel
  induction fuel with
  | zero =>
    intro r
    cases r with
    | nil =>
      cases ws with
      | nil => exact absurd rfl hne
      | cons w wt => rfl
    | cons c cs => rfl
  | succ f ih =>
    intro r
    have hcons : ∃ c cs, r ++ ws = c :: cs := by
      cases r with
      | nil =>
        cases ws with
        | nil => exact absurd rfl hne
        | cons w wt => exact ⟨w, wt, rfl⟩
      | cons c cs => exact ⟨c, cs ++ ws, rfl⟩
    rcases hcons with ⟨c, cs, hcc⟩
    rw [hcc]
    simp only [formatFields]
    rcases hp : parseField0 (c :: cs) with ⟨next, rep, kk⟩
    rcases kk with _ | k
    · simp
    · simp only
      rw [← hcc] at hp
      rcases parseField0_ws_suffix ws hw r next rep k hp with ⟨r2, hr2⟩
      subst hr2
      rw [ih r2]

theorem parse_prefix_append_ws (host : Host) (g ws : List Char)
    (hw : ∀ c ∈ ws, isspace c = true) :
    ∃ r, ( struct_parse_prefix host (g ++ ws)).1 = r ++ ws := by
  cases g with
  | nil =>
    cases ws with
    | nil => exact ⟨[], rfl⟩
    | cons w wt =>
      have hs := hw w (by simp)
      simp only [isspace, Bool.or_eq_true, decide_eq_true_eq] at hs
      rcases hs with ((((h | h) | h) | h) | h) | h <;> subst h <;> exact ⟨[], rfl⟩
  | cons c cs =>
    by_cases h1 : c = '='
    · subst h1; exact ⟨cs, rfl⟩
    by_cases h2 : c = '<'
    · subst h2; exact ⟨cs, rfl⟩
    by_cases h3 : c = '>'
    · subst h3; exact ⟨cs, rfl⟩
    by_cases h4 : c = '!'
    · subst h4; exact ⟨cs, rfl⟩
    by_cases h5 : c = '@'
    · subst h5; exact ⟨cs, rfl⟩
    refine ⟨c :: cs, ?_⟩
    simp only [List.cons_append]
    simp [ struct_parse_prefix, h1, h2, h3, h4, h5]

/-! ### Byte-order helper lemmas -/

theorem stor_16_length (host : Host) (v : Nat) : (stor_16 host v).length = 2 := by
  unfold stor_16
  split <;> rfl

theorem stor_32_length (host : Host) (v : Nat) : (stor_32 host v).length = 4 := by
  unfold stor_32
  split <;> rfl

theorem stor_64_go_length (n v : Nat) : (stor_64_go n v).length = n := by
  induction n generalizing v with
  | zero => rfl
  | succ m ih => simp [stor_64_go, ih]

theorem stor_64_length (host : Host) (v : Nat) : (stor_64 host v).length = 8 := by
  unfold stor_64
  split <;> simp [stor_64_go_length]

theorem load_stor_16 (host : Host) (v : Nat) (hv : v < 2 ^ 16) :
    load_16 host (stor_16 host v) = v := by
  unfold load_16 stor_16
  split <;> simp [List.getD] <;> omega

theorem load_stor_32 (host : Host) (v : Nat) (hv : v < 2 ^ 32) :
    load_32 host (stor_32 host v) = v := by
  unfold load_32 stor_32
  split <;> simp [List.getD] <;> omega

theorem stor_64_go_8 (v : Nat) :
    stor_64_go 8 v =
      [v % 2 ^ 8, v / 2 ^ 8 % 2 ^ 8, v / 2 ^ 16 % 2 ^ 8, v / 2 ^ 24 % 2 ^ 8,
       v / 2 ^ 32 % 2 ^ 8, v / 2 ^ 40 % 2 ^ 8, v / 2 ^ 48 % 2 ^ 8, v / 2 ^ 56 % 2 ^ 8] := by
  simp [stor_64_go, Nat.div_div_eq_div_mul]

theorem load_stor_64 (host : Host) (v : Nat) (hv : v < 2 ^ 64) :
    load_64 host (stor_64 host v) = v := by
  obtain ⟨o, a1, a2, a3, a4, a5⟩ := host
  cases o <;>
    (unfold load_64 stor_64;
     rw [stor_64_go_8];
     simp [load_64_go, List.getD, List.reverse_cons, List.reverse_nil];
     omega)

theorem swab_16_lt (v : Nat) (hv : v < 2 ^ 16) : swab_16 v < 2 ^ 16 := by
  unfold swab_16; omega

theorem swab_16_invol (v : Nat) (hv : v < 2 ^ 16) : swab_16 (swab_16 v) = v := by
  unfold swab_16; omega

theorem swab_32_lt (v : Nat) (hv : v < 2 ^ 32) : swab_32 v < 2 ^ 32 := by
  unfold swab_32; omega

theorem swab_32_unfold (x : Nat) :
    swab_32 x = x / 2 ^ 24 + x / 2 ^ 16 % 2 ^ 8 * 2 ^ 8 + x / 2 ^ 8 % 2 ^ 8 * 2 ^ 16 +
      x % 2 ^ 8 * 2 ^ 24 := rfl

theorem swab_32_invol (v : Nat) (hv : v < 2 ^ 32) : swab_32 (swab_32 v) = v := by
  obtain ⟨b0, b1, b2, b3, hb0, hb1, hb2, hb3, hv4, he⟩ :
      ∃ b0 b1 b2 b3, b0 < 2 ^ 8 ∧ b1 < 2 ^ 8 ∧ b2 < 2 ^ 8 ∧ b3 < 2 ^ 8 ∧
        v = b0 + b1 * 2 ^ 8 + b2 * 2 ^ 16 + b3 * 2 ^ 24 ∧
        swab_32 v = b3 + b2 * 2 ^ 8 + b1 * 2 ^ 16 + b0 * 2 ^ 24 := by
    refine ⟨v % 2 ^ 8, v / 2 ^ 8 % 2 ^ 8, v / 2 ^ 16 % 2 ^ 8, v / 2 ^ 24,
      by omega, by omega, by omega, by omega, by omega, swab_32_unfold v⟩
  rw [he, swab_32_unfold, hv4]
  clear he hv hv4
  omega

theorem swab_64_eq (v : Nat) :
    swab_64 v =
      v % 2 ^ 8 * 2 ^ 56 + v / 2 ^ 8 % 2 ^ 8 * 2 ^ 48 + v / 2 ^ 16 % 2 ^ 8 * 2 ^ 40 +
      v / 2 ^ 24 % 2 ^ 8 * 2 ^ 32 + v / 2 ^ 32 % 2 ^ 8 * 2 ^ 24 + v / 2 ^ 40 % 2 ^ 8 * 2 ^ 16 +
      v / 2 ^ 48 % 2 ^ 8 * 2 ^ 8 + v / 2 ^ 56 % 2 ^ 8 := by
  simp [swab_64, swab_64_go, Nat.div_div_eq_div_mul]
  ring

theorem swab_64_lt (v : Nat) (hv : v < 2 ^ 64) : swab_64 v < 2 ^ 64 := by
  rw [swab_64_eq]; omega

set_option maxHeartbeats 1000000 in
theorem swab_64_invol (v : Nat) (hv : v < 2 ^ 64) : swab_64 (swab_64 v) = v := by
  obtain ⟨b0, b1, b2, b3, b4, b5, b6, b7, hb, hv8, he⟩ :
      ∃ b0 b1 b2 b3 b4 b5 b6 b7,
        (b0 < 2 ^ 8 ∧ b1 < 2 ^ 8 ∧ b2 < 2 ^ 8 ∧ b3 < 2 ^ 8 ∧
         b4 < 2 ^ 8 ∧ b5 < 2 ^ 8 ∧ b6 < 2 ^ 8 ∧ b7 < 2 ^ 8) ∧
        v = b0 + b1 * 2 ^ 8 + b2 * 2 ^ 16 + b3 * 2 ^ 24 + b4 * 2 ^ 32 +
            b5 * 2 ^ 40 + b6 * 2 ^ 48 + b7 * 2 ^ 56 ∧
        swab_64 v = b7 + b6 * 2 ^ 8 + b5 * 2 ^ 16 + b4 * 2 ^ 24 + b3 * 2 ^ 32 +
            b2 * 2 ^ 40 + b1 * 2 ^ 48 + b0 * 2 ^ 56 := by
    refine ⟨v % 2 ^ 8, v / 2 ^ 8 % 2 ^ 8, v / 2 ^ 16 % 2 ^ 8, v / 2 ^ 24 % 2 ^ 8,
      v / 2 ^ 32 % 2 ^ 8, v / 2 ^ 40 % 2 ^ 8, v / 2 ^ 48 % 2 ^ 8, v / 2 ^ 56,
      by omega, by omega, ?_⟩
    rw [swab_64_eq]
    omega
  rw [he, swab_64_eq, hv8]
  clear he hv hv8
  omega

/-! ### Scalar codec round-trip lemmas -/

theorem take_append_len {α : Type} (l1 l2 : List α) (w : Nat) (h : l1.length = w) :
    (l1 ++ l2).take w = l1 := by
  subst h
  simp

theorem drop_append_len {α : Type} (l1 l2 : List α) (w : Nat) (h : l1.length = w) :
    (l1 ++ l2).drop w = l2 := by
  subst h
  simp

theorem normVal_nonbool (k : FieldKind) (a : Val) (h : k ≠ FieldKind.bool) :
    normVal k a = a := by
  cases k <;> cases a <;> simp [normVal] <;> exact absurd rfl h

theorem struct_pack_scalars_spec (enc : Val → Option (List Nat)) (w : Nat)
    (dec : List Nat → Val) (nm : Val → Val) :
    ∀ (seg rest : List Val),
      (∀ a ∈ seg, ∃ bs, enc a = some bs ∧ bs.length = w ∧ dec bs = nm a) →
      ∃ chunk, struct_pack_scalars enc seg.length (seg ++ rest) = (chunk, some rest) ∧
        chunk.length = seg.length * w ∧
        ∀ (extra : List Nat) (uargs : List UnpackArg),
          struct_unpack_scalars dec w seg.length (chunk ++ extra)
            (List.replicate seg.length UnpackArg.scalar ++ uargs) =
            some (seg.map nm, uargs) := by
  intro seg
  induction seg with
  | nil =>
    intro rest _
    exact ⟨[], rfl, by simp, fun extra uargs => rfl⟩
  | cons a seg ih =>
    intro rest h
    rcases h a (by simp) with ⟨bs, henc, hlen, hdec⟩
    rcases ih rest (fun b hb => h b (by simp [hb])) with
      ⟨chunk, hpk, hcl, hupk⟩
    refine ⟨bs ++ chunk, ?_, ?_, ?_⟩
    · simp only [List.length_cons, List.cons_append, struct_pack_scalars, henc,
        List.append_eq, hpk]
    · simp [hlen, hcl]; ring
    · intro extra uargs
      simp only [List.length_cons, List.replicate_succ, List.cons_append,
        struct_unpack_scalars, List.append_eq]
      rw [List.append_assoc, drop_append_len bs (chunk ++ extra) w hlen, hupk extra uargs,
        take_append_len bs (chunk ++ extra) w hlen, hdec]
      simp

theorem enc_dec_byte (a : Val) (h : valOK FieldKind.byte a = true) :
    ∃ bs, enc_byte a = some bs ∧ bs.length = 1 ∧
      dec_byte bs = normVal FieldKind.byte a := by
  cases a <;> simp [valOK] at h
  rename_i v
  exact ⟨[v % 2 ^ 8], rfl, rfl, by
    simp [dec_byte, List.getD, Nat.mod_eq_of_lt h, normVal]⟩

theorem enc_dec_bool (a : Val) (h : valOK FieldKind.bool a = true) :
    ∃ bs, enc_bool a = some bs ∧ bs.length = 1 ∧
      dec_bool bs = normVal FieldKind.bool a := by
  cases a <;> simp [valOK] at h
  rename_i v
  refine ⟨[if v = 0 then 0 else 1], rfl, rfl, ?_⟩
  by_cases hv : v = 0 <;> simp [dec_bool, List.getD, hv, normVal]

theorem enc_dec_short (host : Host) (ctx : struct_context) (a : Val)
    (h : valOK FieldKind.short a = true) :
    ∃ bs, enc_short host ctx a = some bs ∧ bs.length = 2 ∧
      dec_short host ctx bs = normVal FieldKind.short a := by
  cases a <;> simp [valOK] at h
  rename_i v
  have hmod : v % 2 ^ 16 = v := Nat.mod_eq_of_lt h
  refine ⟨_, rfl, stor_16_length host _, ?_⟩
  rw [normVal_nonbool _ _ (by simp)]
  unfold dec_short
  simp only [hmod]
  by_cases hsw : ctx.byte_order ≠ host.order
  · rw [if_pos hsw, if_pos hsw, load_stor_16 host _ (swab_16_lt v h), swab_16_invol v h]
  · rw [if_neg hsw, if_neg hsw, load_stor_16 host v h]

theorem enc_dec_int (host : Host) (ctx : struct_context) (a : Val)
    (h : valOK FieldKind.int a = true) :
    ∃ bs, enc_int host ctx a = some bs ∧ bs.length = 4 ∧
      dec_int host ctx bs = normVal FieldKind.int a := by
  cases a <;> simp [valOK] at h
  rename_i v
  have hmod : v % 2 ^ 32 = v := Nat.mod_eq_of_lt h
  refine ⟨_, rfl, stor_32_length host _, ?_⟩
  rw [normVal_nonbool _ _ (by simp)]
  unfold dec_int
  simp only [hmod]
  by_cases hsw : ctx.byte_order ≠ host.order
  · rw [if_pos hsw, if_pos hsw, load_stor_32 host _ (swab_32_lt v h), swab_32_invol v h]
  · rw [if_neg hsw, if_neg hsw, load_stor_32 host v h]

theorem enc_dec_quad (host : Host) (ctx : struct_context) (a : Val)
    (h : valOK FieldKind.quad a = true) :
    ∃ bs, enc_quad host ctx a = some bs ∧ bs.length = 8 ∧
      dec_quad host ctx bs = normVal FieldKind.quad a := by
  cases a <;> simp [valOK] at h
  rename_i v
  have hmod : v % 2 ^ 64 = v := Nat.mod_eq_of_lt h
  refine ⟨_, rfl, stor_64_length host _, ?_⟩
  rw [normVal_nonbool _ _ (by simp)]
  unfold dec_quad
  simp only [hmod]
  by_cases hsw : ctx.byte_order ≠ host.order
  · rw [if_pos hsw, if_pos hsw, load_stor_64 host _ (swab_64_lt v h), swab_64_invol v h]
  · rw [if_neg hsw, if_neg hsw, load_stor_64 host v h]

theorem enc_dec_float (host : Host) (ctx : struct_context) (a : Val)
    (h : valOK FieldKind.float a = true) :
    ∃ bs, enc_float host ctx a = some bs ∧ bs.length = 4 ∧
      dec_float host ctx bs = normVal FieldKind.float a := by
  cases a <;> simp [valOK] at h
  rename_i v
  have hmod : v % 2 ^ 32 = v := Nat.mod_eq_of_lt h
  refine ⟨_, rfl, stor_32_length host _, ?_⟩
  rw [normVal_nonbool _ _ (by simp)]
  unfold dec_float
  simp only [hmod]
  by_cases hsw : ctx.byte_order ≠ host.order
  · rw [if_pos hsw, if_pos hsw, load_stor_32 host _ (swab_32_lt v h), swab_32_invol v h]
  · rw [if_neg hsw, if_neg hsw, load_stor_32 host v h]

theorem enc_dec_double (host : Host) (ctx : struct_context) (a : Val)
    (h : valOK FieldKind.double a = true) :
    ∃ bs, enc_double host ctx a = some bs ∧ bs.length = 8 ∧
      dec_double host ctx bs = normVal FieldKind.double a := by
  cases a <;> simp [valOK] at h
  rename_i v
  have hmod : v % 2 ^ 64 = v := Nat.mod_eq_of_lt h
  refine ⟨_, rfl, stor_64_length host _, ?_⟩
  rw [normVal_nonbool _ _ (by simp)]
  unfold dec_double
  simp only [hmod]
  by_cases hsw : ctx.byte_order ≠ host.order
  · rw [if_pos hsw, if_pos hsw, load_stor_64 host _ (swab_64_lt v h), swab_64_invol v h]
  · rw [if_neg hsw, if_neg hsw, load_stor_64 host v h]

theorem kind_pack_unpack (host : Host) (k : FieldKind) (ctx : struct_context)
    (hk : scalarKind k = true) (seg rest : List Val)
    (hlen : seg.length = ctx.repeat_count)
    (hok : ∀ a ∈ seg, valOK k a = true) :
    ∃ chunk,
      kind_pack host k ctx (seg ++ rest) = (chunk, some rest) ∧
      chunk.length = kind_padding host k ctx + ctx.repeat_count * kindWidth k ∧
      ∀ (extra : List Nat) (uargs : List UnpackArg),
        kind_unpack host k ctx (chunk ++ extra)
            (List.replicate ctx.repeat_count UnpackArg.scalar ++ uargs) =
          some (kind_padding host k ctx + ctx.repeat_count * kindWidth k,
            seg.map (normVal k), uargs) := by
  cases k with
  | pad => simp [scalarKind] at hk
  | str => simp [scalarKind] at hk
  | byte =>
    obtain ⟨chunk, h1, h2, h3⟩ := struct_pack_scalars_spec enc_byte 1 dec_byte
      (normVal FieldKind.byte) seg rest
      (fun a ha => enc_dec_byte a (hok a ha))
    refine ⟨chunk, ?_, ?_, ?_⟩
    · simpa [kind_pack, struct_pack_byte, ← hlen] using h1
    · simp [kind_padding, kindWidth, ← hlen, h2]
    · intro extra uargs
      simp only [kind_unpack, struct_unpack_byte, ← hlen, h3 extra uargs, Option.map_some]
      simp [kind_padding, kindWidth]
  | bool =>
    obtain ⟨chunk, h1, h2, h3⟩ := struct_pack_scalars_spec enc_bool 1 dec_bool
      (normVal FieldKind.bool) seg rest
      (fun a ha => enc_dec_bool a (hok a ha))
    refine ⟨chunk, ?_, ?_, ?_⟩
    · simpa [kind_pack, struct_pack_bool, ← hlen] using h1
    · simp [kind_padding, kindWidth, ← hlen, h2]
    · intro extra uargs
      simp only [kind_unpack, struct_unpack_bool, ← hlen, h3 extra uargs, Option.map_some]
      simp [kind_padding, kindWidth]
  | short =>
    obtain ⟨chunk, h1, h2, h3⟩ := struct_pack_scalars_spec (enc_short host ctx) 2
      (dec_short host ctx) (normVal FieldKind.short) seg rest
      (fun a ha => enc_dec_short host ctx a (hok a ha))
    refine ⟨List.replicate (struct_field_padding ctx host.alignShort) 0 ++ chunk,
      ?_, ?_, ?_⟩
    · simp [kind_pack, struct_pack_short, ← hlen, h1]
    · simp [kind_padding, kindWidth, ← hlen, h2]
    · intro extra uargs
      simp only [kind_unpack, struct_unpack_short, List.append_assoc]
      rw [drop_append_len _ _ _ (by simp), ← hlen, h3 extra uargs]
      simp [kind_padding, kindWidth]
  | int =>
    obtain ⟨chunk, h1, h2, h3⟩ := struct_pack_scalars_spec (enc_int host ctx) 4
      (dec_int host ctx) (normVal FieldKind.int) seg rest
      (fun a ha => enc_dec_int host ctx a (hok a ha))
    refine ⟨List.replicate (struct_field_padding ctx host.alignInt) 0 ++ chunk,
      ?_, ?_, ?_⟩
    · simp [kind_pack, struct_pack_int, ← hlen, h1]
    · simp [kind_padding, kindWidth, ← hlen, h2]
    · intro extra uargs
      simp only [kind_unpack, struct_unpack_int, List.append_assoc]
      rw [drop_append_len _ _ _ (by simp), ← hlen, h3 extra uargs]
      simp [kind_padding, kindWidth]
  | quad =>
    obtain ⟨chunk, h1, h2, h3⟩ := struct_pack_scalars_spec (enc_quad host ctx) 8
      (dec_quad host ctx) (normVal FieldKind.quad) seg rest
      (fun a ha => enc_dec_quad host ctx a (hok a ha))
    refine ⟨List.replicate (struct_field_padding ctx host.alignQuad) 0 ++ chunk,
      ?_, ?_, ?_⟩
    · simp [kind_pack, struct_pack_quad, ← hlen, h1]
    · simp [kind_padding, kindWidth, ← hlen, h2]
    · intro extra uargs
      simp only [kind_unpack, struct_unpack_quad, List.append_assoc]
      rw [drop_append_len _ _ _ (by simp), ← hlen, h3 extra uargs]
      simp [kind_padding, kindWidth]
  | float =>
    obtain ⟨chunk, h1, h2, h3⟩ := struct_pack_scalars_spec (enc_float host ctx) 4
      (dec_float host ctx) (normVal FieldKind.float) seg rest
      (fun a ha => enc_dec_float host ctx a (hok a ha))
    refine ⟨List.replicate (struct_field_padding ctx host.alignFloat) 0 ++ chunk,
      ?_, ?_, ?_⟩
    · simp [kind_pack, struct_pack_float, ← hlen, h1]
    · simp [kind_padding, kindWidth, ← hlen, h2]
    · intro extra uargs
      simp only [kind_unpack, struct_unpack_float, List.append_assoc]
      rw [drop_append_len _ _ _ (by simp), ← hlen, h3 extra uargs]
      simp [kind_padding, kindWidth]
  | double =>
    obtain ⟨chunk, h1, h2, h3⟩ := struct_pack_scalars_spec (enc_double host ctx) 8
      (dec_double host ctx) (normVal FieldKind.double) seg rest
      (fun a ha => enc_dec_double host ctx a (hok a ha))
    refine ⟨List.replicate (struct_field_padding ctx host.alignDouble) 0 ++ chunk,
      ?_, ?_, ?_⟩
    · simp [kind_pack, struct_pack_double, ← hlen, h1]
    · simp [kind_padding, kindWidth, ← hlen, h2]
    · intro extra uargs
      simp only [kind_unpack, struct_unpack_double, List.append_assoc]
      rw [drop_append_len _ _ _ (by simp), ← hlen, h3 extra uargs]
      simp [kind_padding, kindWidth]

/-! ### Value-list consistency lemmas -/

theorem valsMatch_append (ks1 ks2 : List FieldKind) :
    ∀ vals, valsMatch (ks1 ++ ks2) vals = true →
      ∃ v1 v2, vals = v1 ++ v2 ∧ valsMatch ks1 v1 = true ∧ valsMatch ks2 v2 = true := by
  induction ks1 with
  | nil => intro vals h; exact ⟨[], vals, rfl, rfl, h⟩
  | cons k ks ih =>
    intro vals h
    cases vals with
    | nil => simp [valsMatch] at h
    | cons a vs =>
      simp only [List.cons_append, valsMatch, Bool.and_eq_true] at h
      rcases ih vs h.2 with ⟨v1, v2, hv, h1, h2⟩
      exact ⟨a :: v1, v2, by simp [hv], by simp [valsMatch, h.1, h1], h2⟩

theorem valsMatch_replicate (k : FieldKind) :
    ∀ n seg, valsMatch (List.replicate n k) seg = true →
      seg.length = n ∧ ∀ a ∈ seg, valOK k a = true := by
  intro n
  induction n with
  | zero =>
    intro seg h
    cases seg with
    | nil => simp
    | cons a vs => simp [valsMatch] at h
  | succ m ih =>
    intro seg h
    cases seg with
    | nil => simp [List.replicate_succ, valsMatch] at h
    | cons a vs =>
      simp only [List.replicate_succ, valsMatch, Bool.and_eq_true] at h
      rcases ih vs h.2 with ⟨hl, hall⟩
      refine ⟨by simp [hl], ?_⟩
      intro b hb
      rcases List.mem_cons.mp hb with hb | hb
      · subst hb; exact h.1
      · exact hall b hb

theorem zipWith_append_len {α β γ : Type} (f : α → β → γ) :
    ∀ (l1 : List α) (m1 : List β) (l2 : List α) (m2 : List β),
      l1.length = m1.length →
      List.zipWith f (l1 ++ l2) (m1 ++ m2) =
        List.zipWith f l1 m1 ++ List.zipWith f l2 m2 := by
  intro l1
  induction l1 with
  | nil =>
    intro m1 l2 m2 h
    cases m1 with
    | nil => rfl
    | cons b bs => simp at h
  | cons a as ih =>
    intro m1 l2 m2 h
    cases m1 with
    | nil => simp at h
    | cons b bs =>
      simp only [List.cons_append, List.zipWith_cons_cons]
      rw [ih bs l2 m2 (by simpa using h)]

theorem zipWith_normVal_replicate (k : FieldKind) :
    ∀ (n : Nat) (seg : List Val), seg.length = n →
      List.zipWith normVal (List.replicate n k) seg = seg.map (normVal k) := by
  intro n
  induction n with
  | zero =>
    intro seg h
    rw [List.length_eq_zero] at h
    subst h
    rfl
  | succ m ih =>
    intro seg h
    cases seg with
    | nil => simp at h
    | cons a vs =>
      simp only [List.replicate_succ, List.zipWith_cons_cons, List.map_cons]
      rw [ih vs (by simpa using h)]

theorem slotKinds_cons_scalar (k : FieldKind) (rep : Nat)
    (t : List (FieldKind × Nat)) (hk : scalarKind k = true) :
    slotKinds ((k, rep) :: t) = List.replicate rep k ++ slotKinds t := by
  cases k <;> simp [slotKinds, scalarKind] at hk ⊢

/-! ### Pack/unpack round trip over a whole format walk -/

theorem pack_unpack_loop (host : Host) (sizeP sizeU : Nat) :
    ∀ fuel fmt fields ctx pos vals n bs extra urest,
      fmt.length ≤ fuel →
      formatFields fuel fmt = some fields →
      (∀ p ∈ fields, scalarKind p.1 = true) →
      valsMatch (slotKinds fields) vals = true →
      struct_pack_loop host sizeP fuel fmt ctx pos vals = (n, bs) →
      0 ≤ n →
      (pos : Int) + bs.length ≤ (sizeU : Int) →
      struct_unpack_loop host sizeU fuel fmt ctx (bs ++ extra) pos
          (List.replicate vals.length UnpackArg.scalar ++ urest) =
        (n, normVals fields vals) := by
  intro fuel
  induction fuel with
  | zero =>
    intro fmt fields ctx pos vals n bs extra urest hfl hff hsc hvm hpk hn hcap
    have hfmt : fmt = [] := by
      cases fmt with
      | nil => rfl
      | cons c cs => simp at hfl
    subst hfmt
    simp only [formatFields, Option.some.injEq] at hff
    subst hff
    cases vals with
    | cons a vs => simp [slotKinds, valsMatch] at hvm
    | nil =>
      simp only [struct_pack_loop, Prod.mk.injEq] at hpk
      simp only [struct_unpack_loop, normVals, slotKinds]
      rw [← hpk.1]
      simp [List.zipWith]
  | succ f ih =>
    intro fmt fields ctx pos vals n bs extra urest hfl hff hsc hvm hpk hn hcap
    cases fmt with
    | nil =>
      simp only [formatFields, Option.some.injEq] at hff
      subst hff
      cases vals with
      | cons a vs => simp [slotKinds, valsMatch] at hvm
      | nil =>
        simp only [struct_pack_loop, Prod.mk.injEq] at hpk
        simp only [struct_unpack_loop, normVals, slotKinds]
        rw [← hpk.1]
        simp [List.zipWith]
    | cons c cs =>
      obtain ⟨cbo, cna, cns, coff, crc⟩ := ctx
      rcases hp : parseField0 (c :: cs) with ⟨next, rep, kk⟩
      simp only [formatFields, hp] at hff
      rcases kk with _ | k
      · simp at hff
      · simp only at hff
        rcases hff2 : formatFields f next with _ | fields2
        · rw [hff2] at hff; simp at hff
        · rw [hff2] at hff
          simp only [Option.some.injEq] at hff
          subst hff
          have hsck : scalarKind k = true := hsc (k, rep) (by simp)
          have hsc2 : ∀ p ∈ fields2, scalarKind p.1 = true :=
            fun p hp2 => hsc p (by simp [hp2])
          rw [slotKinds_cons_scalar k rep fields2 hsck] at hvm
          rcases valsMatch_append _ _ vals hvm with ⟨seg, vals2, hveq, hm1, hm2⟩
          subst hveq
          rcases valsMatch_replicate k rep seg hm1 with ⟨hslen, hsok⟩
          obtain ⟨chunk, hKP, hCL, hKU⟩ :=
            kind_pack_unpack host k ⟨cbo, cna, cns, coff, rep⟩ hsck seg vals2
              hslen hsok
          -- dissect the pack hypothesis
          simp only [struct_pack_loop, struct_parse_field_eq, hp] at hpk
          rw [hKP] at hpk
          simp only at hpk
          split at hpk
          · rcases hpk with ⟨h1, _⟩
            omega
          · split at hpk
            · rename_i hnocap hfs
              rcases hpr : struct_pack_loop host sizeP f next
                  ⟨cbo, cna, cns, coff + chunk.length, rep⟩
                  (pos + chunk.length) vals2 with ⟨n2, bs2⟩
              rw [hpr] at hpk
              simp only [Prod.mk.injEq] at hpk
              rcases hpk with ⟨hneq, hbeq⟩
              subst hneq
              subst hbeq
              have hnext : next.length ≤ f := by
                have hlt := parseField0_length hp
                simp only [List.length_cons] at hlt hfl
                omega
              have hcap2 : ((pos + chunk.length : Nat) : Int) + bs2.length ≤ (sizeU : Int) := by
                simp only [List.length_append] at hcap
                push_cast at hcap ⊢
                omega
              have hrec := ih next fields2 ⟨cbo, cna, cns, coff + chunk.length, rep⟩
                (pos + chunk.length) vals2 n2 bs2 extra urest hnext hff2 hsc2 hm2
                hpr hn hcap2
              -- build the unpack side
              simp only [struct_unpack_loop, struct_parse_field_eq, hp]
              have hucap : ¬ ((sizeU : Int) - (pos : Int) <
                  kind_calcsize host k ⟨cbo, cna, cns, coff, rep⟩) := by
                rw [← hfs]
                simp only [List.length_append] at hcap
                push_cast at hcap ⊢
                omega
              rw [if_neg hucap]
              have hbufsplit : (chunk ++ bs2) ++ extra = chunk ++ (bs2 ++ extra) := by
                simp
              rw [hbufsplit]
              have hargsplit :
                  List.replicate (seg ++ vals2).length UnpackArg.scalar ++ urest =
                    List.replicate rep UnpackArg.scalar ++
                      (List.replicate vals2.length UnpackArg.scalar ++ urest) := by
                simp only [List.length_append, hslen]
                rw [List.replicate_add, List.append_assoc]
              rw [hargsplit]
              rw [show (⟨cbo, cna, cns, coff, rep⟩ : struct_context).repeat_count = rep from rfl] at hKU
              rw [hKU (bs2 ++ extra) (List.replicate vals2.length UnpackArg.scalar ++ urest)]
              simp only
              rw [show (⟨cbo, cna, cns, coff, rep⟩ : struct_context).repeat_count = rep from rfl] at hCL
              rw [if_pos (by rw [← hCL]; exact hfs)]
              rw [← hCL]
              rw [drop_append_len chunk (bs2 ++ extra) chunk.length rfl]
              rw [hrec]
              simp only [Prod.mk.injEq, true_and]
              simp only [normVals]
              rw [slotKinds_cons_scalar k rep fields2 hsck,
                zipWith_append_len _ _ _ _ _ (by simp [hslen]),
                zipWith_normVal_replicate k rep seg hslen]
            · rcases hpk with ⟨h1, _⟩
              omega

/-! ### Return-value agreement between the entry-point walks (C2) -/

theorem pack_calcsize_agree (host : Host) (size : Nat) :
    ∀ fuel fmt ctx pos res args n bs m,
      struct_pack_loop host size fuel fmt ctx pos args = (n, bs) →
      0 ≤ n →
      struct_calcsize_loop host fuel fmt ctx res = m →
      0 ≤ m →
      n - pos = m - res := by
  intro fuel
  induction fuel with
  | zero =>
    intro fmt ctx pos res args n bs m hpk hn hcs hm
    cases fmt with
    | nil =>
      simp only [struct_pack_loop, Prod.mk.injEq] at hpk
      simp only [struct_calcsize_loop] at hcs
      omega
    | cons c cs =>
      simp only [struct_pack_loop, Prod.mk.injEq] at hpk
      omega
  | succ f ih =>
    intro fmt ctx pos res args n bs m hpk hn hcs hm
    cases fmt with
    | nil =>
      simp only [struct_pack_loop, Prod.mk.injEq] at hpk
      simp only [struct_calcsize_loop] at hcs
      omega
    | cons c cs =>
      obtain ⟨cbo, cna, cns, coff, crc⟩ := ctx
      rcases hp : parseField0 (c :: cs) with ⟨next, rep, kk⟩
      simp only [struct_pack_loop, struct_parse_field_eq, hp] at hpk
      simp only [struct_calcsize_loop, struct_parse_field_eq, hp] at hcs
      rcases kk with _ | k
      · simp only [Prod.mk.injEq] at hpk
        omega
      · simp only at hpk hcs
        split at hcs
        · omega
        · rename_i hfspos
          split at hpk
          · simp only [Prod.mk.injEq] at hpk
            omega
          · rcases hkp : kind_pack host k ⟨cbo, cna, cns, coff, rep⟩ args with ⟨chunk, oargs⟩
            rw [hkp] at hpk
            rcases oargs with _ | args2
            · simp only [Prod.mk.injEq] at hpk
              omega
            · simp only at hpk
              split at hpk
              · rename_i hfs
                have hts : (kind_calcsize host k ⟨cbo, cna, cns, coff, rep⟩).toNat =
                    chunk.length := by omega
                rw [hts] at hcs
                rcases hpr : struct_pack_loop host size f next
                    ⟨cbo, cna, cns, coff + chunk.length, rep⟩
                    (pos + chunk.length) args2 with ⟨n2, bs2⟩
                rw [hpr] at hpk
                simp only [Prod.mk.injEq] at hpk
                rcases hpk with ⟨hneq, _⟩
                subst hneq
                have := ih next ⟨cbo, cna, cns, coff + chunk.length, rep⟩
                  (pos + chunk.length)
                  (res + kind_calcsize host k ⟨cbo, cna, cns, coff, rep⟩)
                  args2 n2 bs2 m hpr hn hcs hm
                push_cast at this ⊢
                omega
              · simp only [Prod.mk.injEq] at hpk
                omega

theorem unpack_calcsize_agree (host : Host) (size : Nat) :
    ∀ fuel fmt ctx buf pos res args n outs m,
      struct_unpack_loop host size fuel fmt ctx buf pos args = (n, outs) →
      0 ≤ n →
      struct_calcsize_loop host fuel fmt ctx res = m →
      0 ≤ m →
      n - pos = m - res := by
  intro fuel
  induction fuel with
  | zero =>
    intro fmt ctx buf pos res args n outs m hpk hn hcs hm
    cases fmt with
    | nil =>
      simp only [struct_unpack_loop, Prod.mk.injEq] at hpk
      simp only [struct_calcsize_loop] at hcs
      omega
    | cons c cs =>
      simp only [struct_unpack_loop, Prod.mk.injEq] at hpk
      omega
  | succ f ih =>
    intro fmt ctx buf pos res args n outs m hpk hn hcs hm
    cases fmt with
    | nil =>
      simp only [struct_unpack_loop, Prod.mk.injEq] at hpk
      simp only [struct_calcsize_loop] at hcs
      omega
    | cons c cs =>
      obtain ⟨cbo, cna, cns, coff, crc⟩ := ctx
      rcases hp : parseField0 (c :: cs) with ⟨next, rep, kk⟩
      simp only [struct_unpack_loop, struct_parse_field_eq, hp] at hpk
      simp only [struct_calcsize_loop, struct_parse_field_eq, hp] at hcs
      rcases kk with _ | k
      · simp only [Prod.mk.injEq] at hpk
        omega
      · simp only at hpk hcs
        split at hcs
        · omega
        · rename_i hfspos
          split at hpk
          · simp only [Prod.mk.injEq] at hpk
            omega
          · rcases hku : kind_unpack host k ⟨cbo, cna, cns, coff, rep⟩ buf args with
              _ | ⟨r, outs1, args2⟩
            · rw [hku] at hpk
              simp only [Prod.mk.injEq] at hpk
              omega
            · rw [hku] at hpk
              simp only at hpk
              split at hpk
              · rename_i hfs
                have hts : (kind_calcsize host k ⟨cbo, cna, cns, coff, rep⟩).toNat = r := by
                  omega
                rw [hts] at hcs
                rcases hpr : struct_unpack_loop host size f next
                    ⟨cbo, cna, cns, coff + r, rep⟩ (buf.drop r)
                    (pos + r) args2 with ⟨n2, outs2⟩
                rw [hpr] at hpk
                simp only [Prod.mk.injEq] at hpk
                rcases hpk with ⟨hneq, _⟩
                subst hneq
                have := ih next ⟨cbo, cna, cns, coff + r, rep⟩ (buf.drop r)
                  (pos + r)
                  (res + kind_calcsize host k ⟨cbo, cna, cns, coff, rep⟩)
                  args2 n2 outs2 m hpr hn hcs hm
                push_cast at this ⊢
                omega
              · simp only [Prod.mk.injEq] at hpk
                omega

/-! ### Alignment lemmas (C8) -/

theorem struct_field_padding_not_native (ctx : struct_context) (A : Nat)
    (h : ctx.native_alignment = false) : struct_field_padding ctx A = 0 := by
  simp [struct_field_padding, h]

theorem struct_field_padding_native (ctx : struct_context) (A : Nat)
    (h : ctx.native_alignment = true) :
    struct_field_padding ctx A = (A - ctx.offset % A) % A := by
  simp [struct_field_padding, h]

theorem struct_field_padding_aligns (ctx : struct_context) (A : Nat) (hA : 0 < A)
    (hna : ctx.native_alignment = true) :
    (ctx.offset + struct_field_padding ctx A) % A = 0 := by
  rw [struct_field_padding_native ctx A hna]
  have hr : ctx.offset % A < A := Nat.mod_lt _ hA
  by_cases h0 : ctx.offset % A = 0
  · rw [h0, Nat.sub_zero, Nat.mod_self, Nat.add_zero, h0]
  · have hlt : A - ctx.offset % A < A := by omega
    rw [Nat.mod_eq_of_lt hlt]
    have hoff : A * (ctx.offset / A) + ctx.offset % A = ctx.offset :=
      Nat.div_add_mod _ _
    have h2 : ctx.offset + (A - ctx.offset % A) = A * (ctx.offset / A) + A := by
      omega
    rw [h2, show A * (ctx.offset / A) + A = A * (ctx.offset / A + 1) from by ring,
      Nat.mul_mod_right]

theorem kind_padding_not_native (host : Host) (k : FieldKind) (ctx : struct_context)
    (h : ctx.native_alignment = false) : kind_padding host k ctx = 0 := by
  cases k <;> simp [kind_padding, struct_field_padding_not_native, h]

theorem kind_padding_wide (host : Host) (k : FieldKind) (ctx : struct_context)
    (hw : scalarWide k = true) :
    kind_padding host k ctx = struct_field_padding ctx (fieldAlign host k) := by
  cases k <;> simp [scalarWide] at hw <;> rfl

theorem struct_calcsize_trace_spec (host : Host)
    (hs : 0 < host.alignShort) (hi : 0 < host.alignInt) (hq : 0 < host.alignQuad)
    (hf : 0 < host.alignFloat) (hd : 0 < host.alignDouble) :
    ∀ fuel fmt ctx entries,
      struct_calcsize_trace host fuel fmt ctx = some entries →
      ∀ e ∈ entries,
        (ctx.native_alignment = true → scalarWide e.1 = true →
          e.2.2 = (fieldAlign host e.1 - e.2.1 % fieldAlign host e.1) %
              fieldAlign host e.1 ∧
          (e.2.1 + e.2.2) % fieldAlign host e.1 = 0) ∧
        (ctx.native_alignment = false → e.2.2 = 0) := by
  intro fuel
  induction fuel with
  | zero =>
    intro fmt ctx entries ht e he
    cases fmt with
    | nil =>
      simp only [struct_calcsize_trace, Option.some.injEq] at ht
      subst ht
      simp at he
    | cons c cs => simp [struct_calcsize_trace] at ht
  | succ f ih =>
    intro fmt ctx entries ht e he
    cases fmt with
    | nil =>
      simp only [struct_calcsize_trace, Option.some.injEq] at ht
      subst ht
      simp at he
    | cons c cs =>
      rcases hp : parseField0 (c :: cs) with ⟨next, rep, kk⟩
      simp only [struct_calcsize_trace, struct_parse_field_eq, hp] at ht
      rcases kk with _ | k
      · simp at ht
      · simp only at ht
        split at ht
        · simp at ht
        · rcases ht2 : struct_calcsize_trace host f next _ with _ | es2
          · rw [ht2] at ht; simp at ht
          · rw [ht2] at ht
            simp only [Option.some.injEq] at ht
            subst ht
            rcases List.mem_cons.mp he with he | he
            · subst he
              constructor
              · intro hna hw
                have hpad := kind_padding_wide host k
                  { ctx with repeat_count := rep } hw
                have hA : 0 < fieldAlign host k := by
                  cases k <;> simp [scalarWide] at hw <;> simpa [fieldAlign]
                constructor
                · simp only [hpad]
                  exact struct_field_padding_native _ _ hna
                · simp only [hpad]
                  exact struct_field_padding_aligns _ _ hA hna
              · intro hna
                exact kind_padding_not_native host k _ hna
            · exact ih next _ es2 ht2 e he

/-! ### strncpy lemmas (C4) -/

theorem strncpy_bytes_length : ∀ (n : Nat) (src : List Nat),
    (strncpy_bytes n src).length = n := by
  intro n
  induction n with
  | zero => intro src; rfl
  | succ m ih =>
    intro src
    cases src with
    | nil => simp [strncpy_bytes, ih]
    | cons b s =>
      simp only [strncpy_bytes]
      split <;> simp [ih]

theorem strncpy_bytes_nil (n : Nat) : strncpy_bytes n [] = List.replicate n 0 := by
  induction n with
  | zero => rfl
  | succ m ih => simp [strncpy_bytes, ih, List.replicate_succ]

theorem strncpy_bytes_getD_clean : ∀ (n : Nat) (src : List Nat) (i : Nat), i < n →
    (∀ j, j < i → src.getD j 0 ≠ 0) →
    (strncpy_bytes n src).getD i 0 = src.getD i 0 := by
  intro n
  induction n with
  | zero => intro src i hi; omega
  | succ m ih =>
    intro src i hi hcl
    cases src with
    | nil =>
      cases i with
      | zero => simp [strncpy_bytes]
      | succ i2 =>
        exact absurd rfl (hcl 0 (by omega))
    | cons b s =>
      by_cases hb : b = 0
      · cases i with
        | zero => simp [strncpy_bytes, hb]
        | succ i2 =>
          exact absurd hb (hcl 0 (by omega))
      · cases i with
        | zero => simp [strncpy_bytes, hb]
        | succ i2 =>
          simp only [strncpy_bytes, if_neg hb, List.getD_cons_succ]
          exact ih s i2 (by omega) (fun j hj => hcl (j + 1) (by omega))

theorem strncpy_bytes_getD_zero : ∀ (n : Nat) (src : List Nat) (i : Nat), i < n →
    (∃ j, j < i ∧ src.getD j 0 = 0) →
    (strncpy_bytes n src).getD i 0 = 0 := by
  intro n
  induction n with
  | zero => intro src i hi; omega
  | succ m ih =>
    intro src i hi hz
    rcases hz with ⟨j, hji, hj0⟩
    cases src with
    | nil =>
      cases i with
      | zero => omega
      | succ i2 =>
        simp only [strncpy_bytes, List.getD_cons_succ, strncpy_bytes_nil]
        simp [List.getD]
    | cons b s =>
      by_cases hb : b = 0
      · cases i with
        | zero => omega
        | succ i2 =>
          simp only [strncpy_bytes, if_pos hb, List.getD_cons_succ, strncpy_bytes_nil]
          simp [List.getD]
      · cases i with
        | zero => omega
        | succ i2 =>
          cases j with
          | zero => exact absurd hj0 (by simpa using hb)
          | succ j2 =>
            simp only [strncpy_bytes, if_neg hb, List.getD_cons_succ]
            exact ih s i2 (by omega) ⟨j2, by omega, by simpa using hj0⟩

/-! ### Repeat-count accumulation lemmas (C10) -/

theorem digitsValGo_mod_congr : ∀ (cs : List Char) (a b : Nat),
    a % 2 ^ 64 = b % 2 ^ 64 →
    digitsValGo cs a % 2 ^ 64 = digitsValGo cs b % 2 ^ 64 := by
  intro cs
  induction cs with
  | nil => intro a b h; exact h
  | cons c t ih =>
    intro a b h
    simp only [digitsValGo]
    exact ih _ _ (by omega)

theorem isdigit_not_isspace (c : Char) (h : isdigit c = true) : isspace c = false := by
  by_cases hs : isspace c = true
  · rw [isdigit_not_space c hs] at h
    exact absurd h (by simp)
  · simpa using hs

theorem parseRepeat_digits : ∀ (ds rest : List Char) (acc : Nat),
    acc < 2 ^ 64 →
    (∀ c ∈ ds, isdigit c = true) →
    (∀ r rs, rest = r :: rs → isdigit r = false) →
    parseRepeat (ds ++ rest) acc = (digitsValGo ds acc % 2 ^ 64, rest) := by
  intro ds
  induction ds with
  | nil =>
    intro rest acc hacc _ hrest
    cases rest with
    | nil =>
      simp only [List.append_nil, parseRepeat, digitsValGo]
      rw [Nat.mod_eq_of_lt hacc]
    | cons r rs =>
      simp only [List.nil_append, parseRepeat, hrest r rs rfl, Bool.false_eq_true,
        if_false, digitsValGo]
      rw [Nat.mod_eq_of_lt hacc]
  | cons c t ih =>
    intro rest acc hacc hds hrest
    simp only [List.cons_append, parseRepeat, hds c (by simp), if_true, List.append_eq]
    rw [ih rest _ (Nat.mod_lt _ (by norm_num)) (fun d hd => hds d (by simp [hd])) hrest]
    simp only [digitsValGo]
    rw [digitsValGo_mod_congr t ((acc * 10 + (c.toNat - 48)) % 2 ^ 64)
      (acc * 10 + (c.toNat - 48)) (by omega)]

theorem parseField0_digits (ds rest : List Char) (hne : ds ≠ [])
    (hds : ∀ c ∈ ds, isdigit c = true)
    (hrest : ∀ r rs, rest = r :: rs → isdigit r = false) :
    (parseField0 (ds ++ rest)).2.1 = digitsVal ds % 2 ^ 64 := by
  cases ds with
  | nil => exact absurd rfl hne
  | cons c t =>
    have hdc : isdigit c = true := hds c (by simp)
    have hpr := parseRepeat_digits (c :: t) rest 0 (by norm_num) hds hrest
    rw [List.cons_append] at hpr
    unfold parseField0
    rw [show skipSpaces ((c :: t) ++ rest) = c :: (t ++ rest) from by
      simp [skipSpaces, isdigit_not_isspace c hdc]]
    simp only [hdc, if_true, hpr]
    cases rest with
    | nil => rfl
    | cons r rs =>
      simp only
      rcases findField struct_format_fields r with _ | k <;> rfl

/-! ### Entry-point unfolding and result-range helpers -/

theorem struct_pack_unfold (host : Host) (size : Nat) (f : List Char)
    (args : List Val) :
    struct_pack host false size (some f) args =
      struct_pack_loop host size ( struct_parse_prefix host f).1.length
        ( struct_parse_prefix host f).1 ( struct_parse_prefix host f).2 0 args := rfl

theorem struct_unpack_unfold (host : Host) (size : Nat) (f : List Char)
    (buf : List Nat) (args : List UnpackArg) :
    struct_unpack host false size (some f) buf args =
      struct_unpack_loop host size ( struct_parse_prefix host f).1.length
        ( struct_parse_prefix host f).1 ( struct_parse_prefix host f).2 buf 0 args := rfl

theorem struct_calcsize_unfold (host : Host) (f : List Char) :
    struct_calcsize host (some f) =
      struct_calcsize_loop host ( struct_parse_prefix host f).1.length
        ( struct_parse_prefix host f).1 ( struct_parse_prefix host f).2 0 := rfl

theorem structFields_unfold (host : Host) (f : List Char) :
    structFields host f =
      formatFields ( struct_parse_prefix host f).1.length
        ( struct_parse_prefix host f).1 := rfl

theorem pack_top_range (host : Host) (b : Bool) (size : Nat)
    (fopt : Option (List Char)) (args : List Val) :
    -1 ≤ (struct_pack host b size fopt args).1 := by
  cases fopt with
  | none => simp [struct_pack]
  | some f =>
    cases b with
    | true => simp [struct_pack]
    | false =>
      rw [struct_pack_unfold]
      exact struct_pack_loop_ge host size _ _ _ _ _

theorem unpack_top_range (host : Host) (b : Bool) (size : Nat)
    (fopt : Option (List Char)) (buf : List Nat) (args : List UnpackArg) :
    -1 ≤ (struct_unpack host b size fopt buf args).1 := by
  cases fopt with
  | none => simp [struct_unpack]
  | some f =>
    cases b with
    | true => simp [struct_unpack]
    | false =>
      rw [struct_unpack_unfold]
      exact struct_unpack_loop_ge host size _ _ _ _ _ _

theorem calcsize_top_range (host : Host) (fopt : Option (List Char)) :
    -1 ≤ struct_calcsize host fopt := by
  cases fopt with
  | none => simp [struct_calcsize]
  | some f =>
    rw [struct_calcsize_unfold]
    exact struct_calcsize_loop_ge host _ _ _ 0 (le_refl 0)

theorem pack_top_fields (host : Host) (size : Nat) (f : List Char) (args : List Val)
    (h : 0 ≤ (struct_pack host false size (some f) args).1) :
    ∃ fs, structFields host f = some fs := by
  rw [struct_pack_unfold] at h
  rw [structFields_unfold]
  exact struct_pack_loop_nonneg_fields host size _ _ _ _ _ h

theorem unpack_top_fields (host : Host) (size : Nat) (f : List Char)
    (buf : List Nat) (args : List UnpackArg)
    (h : 0 ≤ (struct_unpack host false size (some f) buf args).1) :
    ∃ fs, structFields host f = some fs := by
  rw [struct_unpack_unfold] at h
  rw [structFields_unfold]
  exact struct_unpack_loop_nonneg_fields host size _ _ _ _ _ _ h

theorem calcsize_top_fields (host : Host) (f : List Char)
    (h : 0 ≤ struct_calcsize host (some f)) :
    ∃ fs, structFields host f = some fs := by
  rw [struct_calcsize_unfold] at h
  rw [structFields_unfold]
  exact struct_calcsize_loop_nonneg_fields host _ _ _ _ h

theorem pack_top_err (host : Host) (b : Bool) (size : Nat) (f : List Char)
    (args : List Val) (h : structFields host f = none) :
    (struct_pack host b size (some f) args).1 = -1 := by
  cases b with
  | true => simp [struct_pack]
  | false =>
    have h1 := pack_top_range host false size (some f) args
    by_cases h2 : 0 ≤ (struct_pack host false size (some f) args).1
    · rcases pack_top_fields host size f args h2 with ⟨fs, hfs⟩
      rw [h] at hfs
      exact absurd hfs (by simp)
    · omega

theorem unpack_top_err (host : Host) (b : Bool) (size : Nat) (f : List Char)
    (buf : List Nat) (args : List UnpackArg) (h : structFields host f = none) :
    (struct_unpack host b size (some f) buf args).1 = -1 := by
  cases b with
  | true => simp [struct_unpack]
  | false =>
    have h1 := unpack_top_range host false size (some f) buf args
    by_cases h2 : 0 ≤ (struct_unpack host false size (some f) buf args).1
    · rcases unpack_top_fields host size f buf args h2 with ⟨fs, hfs⟩
      rw [h] at hfs
      exact absurd hfs (by simp)
    · omega

theorem calcsize_top_err (host : Host) (f : List Char)
    (h : structFields host f = none) :
    struct_calcsize host (some f) = -1 := by
  have h1 := calcsize_top_range host (some f)
  by_cases h2 : 0 ≤ struct_calcsize host (some f)
  · rcases calcsize_top_fields host f h2 with ⟨fs, hfs⟩
    rw [h] at hfs
    exact absurd hfs (by simp)
  · omega

theorem structFields_trailing_ws (host : Host) (g ws : List Char) (hne : ws ≠ [])
    (hws : ∀ c ∈ ws, isspace c = true) :
    structFields host (g ++ ws) = none := by
  rw [structFields_unfold]
  rcases parse_prefix_append_ws host g ws hws with ⟨r, hr⟩
  rw [hr]
  exact formatFields_append_ws ws hne hws _ r

/-! ### Claim theorems -/

/-- C1: for every format whose fields are all scalar kinds (no pad, no
bytes) and every value list consistent with it, decoding the buffer
produced by a successful `struct_pack` writes back through the output
pointers exactly the packed values, with bool values normalised to
0/1, and returns the same byte count. -/
theorem C1_roundtrip (host : Host) (size : Nat) (fmt : List Char)
    (vals : List Val) (fields : List (FieldKind × Nat)) (n : Int) (buf : List Nat)
    (hfields : structFields host fmt = some fields)
    (hscalar : ∀ p ∈ fields, scalarKind p.1 = true)
    (hconsistent : valsMatch (slotKinds fields) vals = true)
    (hpack : struct_pack host false size (some fmt) vals = (n, buf))
    (hok : 0 ≤ n) :
    struct_unpack host false buf.length (some fmt) buf
        (List.replicate vals.length UnpackArg.scalar) =
      (n, normVals fields vals) := by
  rw [structFields_unfold] at hfields
  rw [struct_pack_unfold] at hpack
  rw [struct_unpack_unfold]
  have h := pack_unpack_loop host size buf.length
    ( struct_parse_prefix host fmt).1.length ( struct_parse_prefix host fmt).1
    fields ( struct_parse_prefix host fmt).2 0 vals n buf [] []
    (le_refl _) hfields hscalar hconsistent hpack hok (by simp)
  simpa using h

/-- C1 witness: the round trip at the format "hhl" with values
(1, 2, 3) on a little-endian x86-64 host. -/
theorem C1_roundtrip_witness :
    structFields hostLE64 ['h', 'h', 'l'] =
      some [(FieldKind.short, 1), (FieldKind.short, 1), (FieldKind.int, 1)] ∧
    valsMatch
      (slotKinds [(FieldKind.short, 1), (FieldKind.short, 1), (FieldKind.int, 1)])
      [Val.vint 1, Val.vint 2, Val.vu32 3] = true ∧
    struct_pack hostLE64 false 100 (some ['h', 'h', 'l'])
      [Val.vint 1, Val.vint 2, Val.vu32 3] = (8, [1, 0, 2, 0, 3, 0, 0, 0]) ∧
    struct_unpack hostLE64 false 8 (some ['h', 'h', 'l']) [1, 0, 2, 0, 3, 0, 0, 0]
        (List.replicate 3 UnpackArg.scalar) =
      (8, normVals [(FieldKind.short, 1), (FieldKind.short, 1), (FieldKind.int, 1)]
        [Val.vint 1, Val.vint 2, Val.vu32 3]) := by
  refine ⟨by decide, by decide, by decide, ?_⟩
  have h := C1_roundtrip hostLE64 100 ['h', 'h', 'l']
    [Val.vint 1, Val.vint 2, Val.vu32 3]
    [(FieldKind.short, 1), (FieldKind.short, 1), (FieldKind.int, 1)]
    8 [1, 0, 2, 0, 3, 0, 0, 0] (by decide) (by decide) (by decide) (by decide)
    (by decide)
  simpa using h

/-- C2 counterexample: on the format "0l" `struct_pack` succeeds (it
returns 0), while `struct_calcsize` returns the sentinel −1, because
its `field_size <= 0` guard rejects the zero-sized field; so the claim
that `struct_calcsize` succeeds on every format on which `struct_pack`
succeeds is false. -/
theorem C2_counterexample :
    (struct_pack hostLE64 false 4 (some ['0', 'l']) []).1 = 0 ∧
    0 ≤ (struct_pack hostLE64 false 4 (some ['0', 'l']) []).1 ∧
    struct_calcsize hostLE64 (some ['0', 'l']) = -1 := by decide

/-- C2 (amended): whenever `struct_calcsize` succeeds on a format,
every successful `struct_pack` and every successful `struct_unpack` on
that format returns exactly `struct_calcsize`'s value; however
`struct_calcsize` may return the negative sentinel on a format
containing a zero-sized field (for example "0l") even though
`struct_pack` and `struct_unpack` succeed there. -/
theorem C2_size_agreement (host : Host) (size : Nat) (fmt : List Char)
    (args : List Val) (buf : List Nat) (uargs : List UnpackArg) (m : Int)
    (hcs : struct_calcsize host (some fmt) = m) (hm : 0 ≤ m) :
    (∀ n bs, struct_pack host false size (some fmt) args = (n, bs) →
      0 ≤ n → n = m) ∧
    (∀ n outs, struct_unpack host false size (some fmt) buf uargs = (n, outs) →
      0 ≤ n → n = m) := by
  rw [struct_calcsize_unfold] at hcs
  constructor
  · intro n bs hpk hn
    rw [struct_pack_unfold] at hpk
    have h := pack_calcsize_agree host size _ _ _ 0 0 args n bs m hpk hn hcs hm
    omega
  · intro n outs hup hn
    rw [struct_unpack_unfold] at hup
    have h := unpack_calcsize_agree host size _ _ _ buf 0 0 uargs n outs m hup hn hcs hm
    omega

/-- C2 witness: on "hhl" `struct_calcsize` returns 8 and a successful
pack and unpack both return 8. -/
theorem C2_size_agreement_witness :
    struct_calcsize hostLE64 (some ['h', 'h', 'l']) = 8 ∧
    (struct_pack hostLE64 false 100 (some ['h', 'h', 'l'])
      [Val.vint 1, Val.vint 2, Val.vu32 3]).1 = 8 ∧
    (struct_unpack hostLE64 false 8 (some ['h', 'h', 'l']) [1, 0, 2, 0, 3, 0, 0, 0]
      [UnpackArg.scalar, UnpackArg.scalar, UnpackArg.scalar]).1 = 8 := by
  have h := C2_size_agreement hostLE64 100 ['h', 'h', 'l']
    [Val.vint 1, Val.vint 2, Val.vu32 3] [1, 0, 2, 0, 3, 0, 0, 0]
    [UnpackArg.scalar, UnpackArg.scalar, UnpackArg.scalar] 8 (by decide) (by decide)
  refine ⟨by decide, ?_, ?_⟩
  · exact h.1
      (struct_pack hostLE64 false 100 (some ['h', 'h', 'l'])
        [Val.vint 1, Val.vint 2, Val.vu32 3]).1
      (struct_pack hostLE64 false 100 (some ['h', 'h', 'l'])
        [Val.vint 1, Val.vint 2, Val.vu32 3]).2 rfl (by decide)
  · have h2 := C2_size_agreement hostLE64 8 ['h', 'h', 'l']
      [Val.vint 1, Val.vint 2, Val.vu32 3] [1, 0, 2, 0, 3, 0, 0, 0]
      [UnpackArg.scalar, UnpackArg.scalar, UnpackArg.scalar] 8 (by decide) (by decide)
    exact h2.2
      (struct_unpack hostLE64 false 8 (some ['h', 'h', 'l']) [1, 0, 2, 0, 3, 0, 0, 0]
        [UnpackArg.scalar, UnpackArg.scalar, UnpackArg.scalar]).1
      (struct_unpack hostLE64 false 8 (some ['h', 'h', 'l']) [1, 0, 2, 0, 3, 0, 0, 0]
        [UnpackArg.scalar, UnpackArg.scalar, UnpackArg.scalar]).2 rfl (by decide)

/-- C3: evaluation of `struct_pack_str` through `struct_pack` at the
failing input of the code bug.  The copy loop tests `*str != '0'`
(the digit 0x30, not NUL): packing the one-byte source 0x30 under "s"
stores 0x00 instead of copying 0x30 verbatim, and packing
(0x41, 0x30, 0x42) under "3s" stores (0x41, 0, 0), the source pointer
being stuck at the digit; a NUL byte, by contrast, is copied as data
(third conjunct), confirming that the sentinel is the character '0'. -/
theorem C3_zero_digit_sentinel :
    struct_pack hostLE64 false 1 (some ['s']) [Val.vstr (some [48])] = (1, [0]) ∧
    struct_pack hostLE64 false 3 (some ['3', 's'])
      [Val.vstr (some [65, 48, 66])] = (3, [65, 0, 0]) ∧
    struct_pack hostLE64 false 2 (some ['2', 's'])
      [Val.vstr (some [0, 65])] = (2, [0, 65]) := by decide

/-- C4 counterexample: decoding one `s` byte (repeat 1) from the source
(0x41) into a 3-byte destination initially (7, 7, 7) yields
(0x41, 7, 0): the NUL terminator lands at index capacity − 1 = 2, and
the byte at index min(repeat, capacity − 1) = 1 is the untouched old
value 7, not the NUL the claim requires. -/
theorem C4_counterexample :
    struct_unpack hostLE64 false 1 (some ['s']) [65] [UnpackArg.sbuf [7, 7, 7]] =
      (1, [Val.vstr (some [65, 7, 0])]) ∧
    ¬ (([65, 7, 0] : List Nat).getD (min 1 (3 - 1)) 0 = 0) := by decide

theorem getD_cons_zero_nat (a : Nat) (l : List Nat) (d : Nat) :
    (a :: l).getD 0 d = a := rfl

theorem getD_cons_succ_nat (a : Nat) (l : List Nat) (i d : Nat) :
    (a :: l).getD (i + 1) d = l.getD i d := rfl

theorem getD_append_left_nat : ∀ (l1 l2 : List Nat) (i d : Nat), i < l1.length →
    (l1 ++ l2).getD i d = l1.getD i d := by
  intro l1
  induction l1 with
  | nil => intro l2 i d h; simp at h
  | cons a t ih =>
    intro l2 i d h
    cases i with
    | zero => rfl
    | succ i2 =>
      simp only [List.cons_append, getD_cons_succ_nat]
      exact ih l2 i2 d (by simpa using h)

theorem getD_append_right_nat : ∀ (l1 l2 : List Nat) (i d : Nat), l1.length ≤ i →
    (l1 ++ l2).getD i d = l2.getD (i - l1.length) d := by
  intro l1
  induction l1 with
  | nil => intro l2 i d h; rfl
  | cons a t ih =>
    intro l2 i d h
    cases i with
    | zero => simp at h
    | succ i2 =>
      simp only [List.cons_append, getD_cons_succ_nat, List.length_cons]
      rw [ih l2 i2 d (by simpa using h)]
      congr 1
      omega

theorem getD_drop_nat : ∀ (l : List Nat) (n i d : Nat),
    (l.drop n).getD i d = l.getD (n + i) d := by
  intro l
  induction l with
  | nil => intro n i d; simp [List.getD]
  | cons a t ih =>
    intro n i d
    cases n with
    | zero => simp
    | succ n2 =>
      simp only [List.drop_succ_cons]
      rw [ih n2 i d]
      have : n2 + 1 + i = (n2 + i) + 1 := by omega
      rw [this, getD_cons_succ_nat]

theorem getD_set_ne_nat : ∀ (l : List Nat) (j v i d : Nat), i ≠ j →
    (l.set j v).getD i d = l.getD i d := by
  intro l
  induction l with
  | nil => intro j v i d _; rfl
  | cons a t ih =>
    intro j v i d hne
    cases j with
    | zero =>
      cases i with
      | zero => exact absurd rfl hne
      | succ i2 => rfl
    | succ j2 =>
      cases i with
      | zero => rfl
      | succ i2 =>
        simp only [List.set_cons_succ, getD_cons_succ_nat]
        exact ih j2 v i2 d (by omega)

theorem getD_set_self_nat : ∀ (l : List Nat) (i v d : Nat), i < l.length →
    (l.set i v).getD i d = v := by
  intro l
  induction l with
  | nil => intro i v d h; simp at h
  | cons a t ih =>
    intro i v d h
    cases i with
    | zero => rfl
    | succ i2 =>
      simp only [List.set_cons_succ, getD_cons_succ_nat]
      exact ih i2 v d (by simpa using h)

/-- C4 (amended): for an `s` field with repeat n decoded into a
destination of capacity cap ≥ 1, the code performs
`strncpy(dst, src, min(n, cap))` - copying source bytes verbatim only
up to the first NUL in the source and zero-filling the rest of those
positions - and then stores a single NUL at index cap − 1 (not at
min(n, cap−1)); positions from min(n, cap) up to cap − 2 keep their
previous contents. -/
theorem C4_unpack_str_spec (ctx : struct_context) (buffer dest : List Nat)
    (rest : List UnpackArg) (hcap : 1 ≤ dest.length) :
    ∃ out, struct_unpack_str ctx buffer (UnpackArg.sbuf dest :: rest) =
        some (ctx.repeat_count * 1, [Val.vstr (some out)], rest) ∧
      out.length = dest.length ∧
      out.getD (dest.length - 1) 0 = 0 ∧
      (∀ i, i < min ctx.repeat_count dest.length → i ≠ dest.length - 1 →
        ((∀ j, j < i → buffer.getD j 0 ≠ 0) → out.getD i 0 = buffer.getD i 0) ∧
        ((∃ j, j < i ∧ buffer.getD j 0 = 0) → out.getD i 0 = 0)) ∧
      (∀ i, min ctx.repeat_count dest.length ≤ i → i < dest.length - 1 →
        out.getD i 0 = dest.getD i 0) := by
  have hcnt : (if ctx.repeat_count < dest.length then ctx.repeat_count
      else dest.length) = min ctx.repeat_count dest.length := by
    rw [min_def]
    split <;> split <;> omega
  have hminle : min ctx.repeat_count dest.length ≤ dest.length := Nat.min_le_right _ _
  have hlen0 : (strncpy_bytes (min ctx.repeat_count dest.length) buffer ++
      dest.drop (min ctx.repeat_count dest.length)).length = dest.length := by
    simp only [List.length_append, strncpy_bytes_length, List.length_drop]
    omega
  refine ⟨(strncpy_bytes (min ctx.repeat_count dest.length) buffer ++
      dest.drop (min ctx.repeat_count dest.length)).set (dest.length - 1) 0,
    ?_, ?_, ?_, ?_, ?_⟩
  · simp only [struct_unpack_str, hcnt]
  · simp [hlen0]
  · exact getD_set_self_nat _ _ _ _ (by rw [hlen0]; omega)
  · intro i hi hine
    rw [getD_set_ne_nat _ _ _ _ _ hine,
      getD_append_left_nat _ _ _ _ (by rw [strncpy_bytes_length]; omega)]
    constructor
    · intro hclean
      exact strncpy_bytes_getD_clean _ buffer i (by omega) hclean
    · intro hzero
      exact strncpy_bytes_getD_zero _ buffer i (by omega) hzero
  · intro i hmin hi
    rw [getD_set_ne_nat _ _ _ _ _ (by omega),
      getD_append_right_nat _ _ _ _ (by rw [strncpy_bytes_length]; omega),
      strncpy_bytes_length, getD_drop_nat]
    congr 1
    omega

/-- C4 witness: the amended description at repeat 1, source (0x41),
destination (7, 7, 7). -/
theorem C4_unpack_str_spec_witness :
    1 ≤ ([7, 7, 7] : List Nat).length ∧
    ∃ out, struct_unpack_str ⟨ByteOrder.little, true, true, 0, 1⟩ [65]
        (UnpackArg.sbuf [7, 7, 7] :: []) =
        some (1 * 1, [Val.vstr (some out)], []) ∧
      out.length = 3 ∧
      out.getD 2 0 = 0 := by
  refine ⟨by decide, ?_⟩
  rcases C4_unpack_str_spec ⟨ByteOrder.little, true, true, 0, 1⟩ [65] [7, 7, 7] []
    (by decide) with ⟨out, h1, h2, h3, _, _⟩
  exact ⟨out, h1, h2, h3⟩

/-- C5 counterexample: `struct_calcsize` on "l0lh" does not succeed
(its `field_size <= 0` guard turns the zero-sized re-align field into
the sentinel −1), and `struct_calcsize` on "llh" is 10, so the claimed
equality fails.  (Moreover the two sides could not be equal even with
zero-sized fields admitted: `struct_pack` accepts "l0lh" and produces
6 bytes, not 10.) -/
theorem C5_counterexample :
    struct_calcsize hostLE64 (some ['l', '0', 'l', 'h']) = -1 ∧
    struct_calcsize hostLE64 (some ['l', 'l', 'h']) = 10 ∧
    struct_calcsize hostLE64 (some ['l', '0', 'l', 'h']) < 0 := by decide

/-- C5 (amended): a zero repeat on a scalar field kind is accepted by
`struct_pack` and `struct_unpack`: the pack handler writes only the
alignment padding and consumes no value arguments, the unpack handler
consumes only the padding bytes and fills no output slot.
`struct_calcsize`, however, returns the negative sentinel whenever a
field's size including padding is zero: struct_calcsize("l0lh") = −1
even though struct_pack on "l0lh" succeeds (returning 6, the size
without the zero field — not struct_calcsize("llh") = 10); the
re-align identity that does hold concretely is
struct_calcsize("llh0l") = 12, where the trailing "0l" contributes
exactly its two padding bytes. -/
theorem C5_zero_repeat (host : Host) (k : FieldKind) (ctx : struct_context)
    (args : List Val) (buf : List Nat) (uargs : List UnpackArg)
    (hk : scalarKind k = true) (hrep : ctx.repeat_count = 0) :
    kind_pack host k ctx args = (List.replicate (kind_padding host k ctx) 0, some args) ∧
    kind_unpack host k ctx buf uargs = some (kind_padding host k ctx, [], uargs) ∧
    struct_calcsize hostLE64 (some ['l', '0', 'l', 'h']) = -1 ∧
    struct_pack hostLE64 false 100 (some ['l', '0', 'l', 'h'])
      [Val.vu32 5, Val.vint 7] = (6, [5, 0, 0, 0, 7, 0]) ∧
    struct_unpack hostLE64 false 6 (some ['l', '0', 'l', 'h']) [5, 0, 0, 0, 7, 0]
      [UnpackArg.scalar, UnpackArg.scalar] = (6, [Val.vu32 5, Val.vint 7]) ∧
    struct_calcsize hostLE64 (some ['l', 'l', 'h', '0', 'l']) = 12 ∧
    struct_calcsize hostLE64 (some ['l', 'l', 'h']) = 10 := by
  refine ⟨?_, ?_, by decide, by decide, by decide, by decide, by decide⟩
  · cases k <;> simp [scalarKind] at hk <;>
      simp [kind_pack, struct_pack_byte, struct_pack_bool, struct_pack_short,
        struct_pack_int, struct_pack_quad, struct_pack_float, struct_pack_double,
        hrep, struct_pack_scalars, kind_padding]
  · cases k <;> simp [scalarKind] at hk <;>
      simp [kind_unpack, struct_unpack_byte, struct_unpack_bool, struct_unpack_short,
        struct_unpack_int, struct_unpack_quad, struct_unpack_float,
        struct_unpack_double, hrep, struct_unpack_scalars, kind_padding]

/-- C5 witness: the zero-repeat handler behaviour at the int kind in an
aligned native context. -/
theorem C5_zero_repeat_witness :
    scalarKind FieldKind.int = true ∧
    kind_pack hostLE64 FieldKind.int ⟨ByteOrder.little, true, true, 4, 0⟩ [] =
      (List.replicate (kind_padding hostLE64 FieldKind.int
        ⟨ByteOrder.little, true, true, 4, 0⟩) 0, some []) := by
  refine ⟨by decide, ?_⟩
  exact (C5_zero_repeat hostLE64 FieldKind.int ⟨ByteOrder.little, true, true, 4, 0⟩
    [] [] [] (by decide) (by decide)).1

/-- C6: the encoder bound check can be defeated by `size_t` overflow in
the per-field size computation, after which `struct_pack` writes past
the declared capacity.  With repeat 2^61 = 2305843009213693952 on a
`q` field, the field size is computed as (2^61 · 8) mod 2^64 = 0, the
`offset + field_size > capacity` check passes against capacity 0, and
the quad pack loop then stores 8 bytes into the zero-byte buffer
before failing: the returned byte list is non-empty although the
capacity is 0, contradicting the claim that `struct_pack` never writes
beyond the first `capacity` bytes. -/
theorem C6_overflow_writes_past_capacity :
    struct_pack hostLE64 false 0
        (some ['2', '3', '0', '5', '8', '4', '3', '0', '0', '9', '2', '1', '3',
          '6', '9', '3', '9', '5', '2', 'q']) [Val.vu64 1] =
      (-1, [1, 0, 0, 0, 0, 0, 0, 0]) ∧
    0 < (struct_pack hostLE64 false 0
        (some ['2', '3', '0', '5', '8', '4', '3', '0', '0', '9', '2', '1', '3',
          '6', '9', '3', '9', '5', '2', 'q']) [Val.vu64 1]).2.length := by decide

/-- C7: every failing call returns the single sentinel −1: a NULL
buffer or NULL format makes `struct_pack`/`struct_unpack` fail, a NULL
format makes `struct_calcsize` fail; a format whose body does not parse
to the end (unknown letter, repeat count with no following letter,
misplaced mode prefix) makes all three fail; every return value is −1
or non-negative; and a non-negative return implies the whole format
string was consumed (the descriptor walk reaches the end). -/
theorem C7_error_sentinel (host : Host) (b : Bool) (size : Nat) (fmt : List Char)
    (args : List Val) (buf : List Nat) (uargs : List UnpackArg) :
    struct_pack host true size (some fmt) args = (-1, []) ∧
    struct_pack host b size none args = (-1, []) ∧
    struct_unpack host true size (some fmt) buf uargs = (-1, []) ∧
    struct_unpack host b size none buf uargs = (-1, []) ∧
    struct_calcsize host none = -1 ∧
    (structFields host fmt = none →
      (struct_pack host b size (some fmt) args).1 = -1 ∧
      (struct_unpack host b size (some fmt) buf uargs).1 = -1 ∧
      struct_calcsize host (some fmt) = -1) ∧
    -1 ≤ (struct_pack host b size (some fmt) args).1 ∧
    -1 ≤ (struct_unpack host b size (some fmt) buf uargs).1 ∧
    -1 ≤ struct_calcsize host (some fmt) ∧
    (0 ≤ (struct_pack host false size (some fmt) args).1 →
      ∃ fs, structFields host fmt = some fs) ∧
    (0 ≤ (struct_unpack host false size (some fmt) buf uargs).1 →
      ∃ fs, structFields host fmt = some fs) ∧
    (0 ≤ struct_calcsize host (some fmt) →
      ∃ fs, structFields host fmt = some fs) := by
  refine ⟨by simp [struct_pack], by cases b <;> simp [struct_pack],
    by simp [struct_unpack], by cases b <;> simp [struct_unpack],
    by simp [struct_calcsize], ?_, pack_top_range host b size (some fmt) args,
    unpack_top_range host b size (some fmt) buf uargs,
    calcsize_top_range host (some fmt),
    pack_top_fields host size fmt args,
    unpack_top_fields host size fmt buf uargs,
    calcsize_top_fields host fmt⟩
  intro h
  exact ⟨pack_top_err host b size fmt args h, unpack_top_err host b size fmt buf uargs h,
    calcsize_top_err host fmt h⟩

/-- C7 witness: the error cases at the format "1" (a repeat count with
no following letter). -/
theorem C7_error_sentinel_witness :
    structFields hostLE64 ['1'] = none ∧
    (struct_pack hostLE64 false 8 (some ['1']) []).1 = -1 ∧
    (struct_unpack hostLE64 false 8 (some ['1']) [] []).1 = -1 ∧
    struct_calcsize hostLE64 (some ['1']) = -1 := by
  have h := (C7_error_sentinel hostLE64 false 8 ['1'] [] [] []).2.2.2.2.2.1 (by decide)
  exact ⟨by decide, h.1, h.2.1, h.2.2⟩

/-- C8: the field trace of any format accepted by the `struct_calcsize`
walk (the walk shared with `struct_pack` and `struct_unpack` through
`kind_calcsize` and `struct_field_padding`) shows: in native-alignment
mode every short/int/quad/float/double field is preceded by exactly
(A − offset mod A) mod A padding bytes, where A is the host alignment
of its scalar type, so its data starts at an offset divisible by A;
with a standard-mode prefix (=, <, >, !) the padding of every field is
0, and those prefixes indeed clear the native-alignment flag while @
(or no prefix) sets it. -/
theorem C8_native_alignment (host : Host) (fmt : List Char)
    (entries : List (FieldKind × Nat × Nat))
    (hs : 0 < host.alignShort) (hi : 0 < host.alignInt) (hq : 0 < host.alignQuad)
    (hf : 0 < host.alignFloat) (hd : 0 < host.alignDouble)
    (ht : structTrace host fmt = some entries) :
    (∀ e ∈ entries,
      (( struct_parse_prefix host fmt).2.native_alignment = true →
        scalarWide e.1 = true →
        e.2.2 = (fieldAlign host e.1 - e.2.1 % fieldAlign host e.1) %
            fieldAlign host e.1 ∧
        (e.2.1 + e.2.2) % fieldAlign host e.1 = 0) ∧
      (( struct_parse_prefix host fmt).2.native_alignment = false → e.2.2 = 0)) ∧
    (∀ c rest, (c = '=' ∨ c = '<' ∨ c = '>' ∨ c = '!') →
      ( struct_parse_prefix host (c :: rest)).2.native_alignment = false) ∧
    (∀ rest, ( struct_parse_prefix host ('@' :: rest)).2.native_alignment = true) := by
  refine ⟨?_, ?_, fun rest => rfl⟩
  · intro e he
    have hu : structTrace host fmt =
        struct_calcsize_trace host ( struct_parse_prefix host fmt).1.length
          ( struct_parse_prefix host fmt).1 ( struct_parse_prefix host fmt).2 := rfl
    rw [hu] at ht
    exact struct_calcsize_trace_spec host hs hi hq hf hd _ _ _ entries ht e he
  · intro c rest h
    rcases h with h | h | h | h <;> subst h <;> rfl

/-- C8 witness: the trace of "ci" on a little-endian x86-64 host: the
int field sits after 3 padding bytes at offset 4, a multiple of its
alignment 4. -/
theorem C8_native_alignment_witness :
    structTrace hostLE64 ['c', 'i'] =
      some [(FieldKind.byte, 0, 0), (FieldKind.int, 1, 3)] ∧
    (1 + 3) % fieldAlign hostLE64 FieldKind.int = 0 := by
  refine ⟨by decide, ?_⟩
  have h := (C8_native_alignment hostLE64 ['c', 'i']
    [(FieldKind.byte, 0, 0), (FieldKind.int, 1, 3)]
    (by decide) (by decide) (by decide) (by decide) (by decide) (by decide)).1
    (FieldKind.int, 1, 3) (by decide)
  exact (h.1 (by decide) (by decide)).2

/-- C9: appending one or more whitespace characters after a format
makes all three entry points return the sentinel −1: the parser skips
whitespace only in front of a further item (last conjunct), so a
trailing run of whitespace leaves the cursor short of the end of the
string, which the final check treats as an error. -/
theorem C9_trailing_whitespace (host : Host) (size : Nat) (args : List Val)
    (buf : List Nat) (uargs : List UnpackArg) (g ws : List Char)
    (hne : ws ≠ []) (hws : ∀ c ∈ ws, isspace c = true) :
    (struct_pack host false size (some (g ++ ws)) args).1 = -1 ∧
    (struct_unpack host false size (some (g ++ ws)) buf uargs).1 = -1 ∧
    struct_calcsize host (some (g ++ ws)) = -1 ∧
    (∀ rest, parseField0 (ws ++ rest) = parseField0 rest) := by
  have h := structFields_trailing_ws host g ws hne hws
  exact ⟨pack_top_err host false size (g ++ ws) args h,
    unpack_top_err host false size (g ++ ws) buf uargs h,
    calcsize_top_err host (g ++ ws) h,
    fun rest => parseField0_ws ws rest hws⟩

/-- C9 witness: the format "h " (trailing blank) fails in all three
entry points, although "h" itself succeeds. -/
theorem C9_trailing_whitespace_witness :
    (struct_pack hostLE64 false 8 (some (['h'] ++ [' '])) [Val.vint 1]).1 = -1 ∧
    (struct_unpack hostLE64 false 8 (some (['h'] ++ [' '])) [1, 0]
      [UnpackArg.scalar]).1 = -1 ∧
    struct_calcsize hostLE64 (some (['h'] ++ [' '])) = -1 ∧
    struct_calcsize hostLE64 (some ['h']) = 2 := by
  have h := C9_trailing_whitespace hostLE64 8 [Val.vint 1] [1, 0] [UnpackArg.scalar]
    ['h'] [' '] (by decide) (by decide)
  exact ⟨h.1, h.2.1, h.2.2.1, by decide⟩

/-- C10: the repeat-count parser accumulates decimal digits in
`size_t` arithmetic, so a digit run always parses to its decimal value
reduced modulo 2^64 (first conjunct); the written count
18446744073709551617 = 2^64 + 1 (second conjunct) therefore parses as
repeat 1, and `struct_calcsize` on "18446744073709551617b" proceeds
with the wrapped count and returns 1 instead of reporting an error
(third conjunct). -/
theorem C10_repeat_wrap (ds rest : List Char) (hne : ds ≠ [])
    (hds : ∀ c ∈ ds, isdigit c = true)
    (hrest : ∀ r rs, rest = r :: rs → isdigit r = false) :
    (parseField0 (ds ++ rest)).2.1 = digitsVal ds % 2 ^ 64 ∧
    digitsVal ['1', '8', '4', '4', '6', '7', '4', '4', '0', '7', '3', '7', '0',
      '9', '5', '5', '1', '6', '1', '7'] = 2 ^ 64 + 1 ∧
    struct_calcsize hostLE64
      (some ['1', '8', '4', '4', '6', '7', '4', '4', '0', '7', '3', '7', '0',
        '9', '5', '5', '1', '6', '1', '7', 'b']) = 1 := by
  exact ⟨parseField0_digits ds rest hne hds hrest, by decide, by decide⟩

/-- C10 witness: the digit run of 2^64 + 1 followed by the field
letter b parses to the wrapped repeat count 1. -/
theorem C10_repeat_wrap_witness :
    (['1', '8', '4', '4', '6', '7', '4', '4', '0', '7', '3', '7', '0', '9', '5',
      '5', '1', '6', '1', '7'] : List Char) ≠ [] ∧
    (parseField0 (['1', '8', '4', '4', '6', '7', '4', '4', '0', '7', '3', '7',
        '0', '9', '5', '5', '1', '6', '1', '7'] ++ ['b'])).2.1 =
      digitsVal ['1', '8', '4', '4', '6', '7', '4', '4', '0', '7', '3', '7', '0',
        '9', '5', '5', '1', '6', '1', '7'] % 2 ^ 64 := by
  refine ⟨by decide, ?_⟩
  refine (C10_repeat_wrap _ ['b'] (by decide) (by decide) ?_).1
  intro r rs h
  injection h with h1 h2
  subst h1
  decide
